import Mathlib

/-!
Verification of the benchmark-harness repository: the measurement-line parser
and benchmark aggregator (`src/template/commands/all.rs`) and the
marker-delimited README patcher (`src/template/readme_benchmarks.rs`).

Strings are modelled as `List Char`.  Rust's `str::match_indices`,
`str::split(..).next()/.last()`, `str::contains` and `str::trim` are modelled
by an explicit left-to-right non-overlapping scan (`matchIndicesFrom`), which
is exactly the semantics of Rust's string searcher.  `f64` values are modelled
with exact rational arithmetic (`QR`, an integer numerator/denominator pair
without normalisation); the parsing and aggregation code only adds, multiplies
and divides decimal values, so the real-number value of every quantity is
tracked exactly, and the spec's "within 1e-6 relative tolerance" claims are
established in the strongest form (exact value equality, via `QR.eqv`).
-/

set_option maxRecDepth 100000

/-! ## Basic string model -/

abbrev Str := List Char

/-- The char list of a string literal. -/
def chars (s : String) : Str := s.data

/-- U+00B5, the micro sign used by Rust's `Duration` formatting (`"µs"`). -/
def microSign : Char := Char.ofNat 181

/-- ASCII whitespace recognised by the model of `str::trim`. -/
def isWs (c : Char) : Bool := c = ' ' || c = '\t' || c = '\n' || c = '\r'

/-- Model of `str::trim`: strip leading and trailing whitespace. -/
def trim (s : Str) : Str :=
  ((s.dropWhile isWs).reverse.dropWhile isWs).reverse

/-- Fuel-driven scanner behind `matchIndicesFrom`; the fuel is an upper bound
on the length of the remaining string, so the definition is structural and
kernel-reducible. -/
def miAux (pat : Str) : Nat → Str → Nat → List Nat
  | 0, _, _ => []
  | _ + 1, [], _ => []
  | f + 1, c :: rest, i =>
    if pat.isPrefixOf (c :: rest) then
      i :: miAux pat f ((c :: rest).drop pat.length) (i + pat.length)
    else
      miAux pat f rest (i + 1)

/-- Model of Rust's `str::match_indices(pat)` (start offsets of the
left-to-right, non-overlapping matches), with all offsets shifted by `i`. -/
def matchIndicesFrom (pat s : Str) (i : Nat) : List Nat :=
  miAux pat s.length s i

/-- Model of `str::contains(pat)` for a substring pattern. -/
def containsSub (pat s : Str) : Bool :=
  !(matchIndicesFrom pat s 0).isEmpty

/-- Model of `s.matches(pat).count()`. -/
def countMatches (pat s : Str) : Nat :=
  (matchIndicesFrom pat s 0).length

/-- Model of `s.split(pat).next()`: the text before the first match of `pat`
(the whole of `s` when there is no match).  Rust's `split(..).next()` on a
string always yields a first piece, so no option is needed. -/
def splitFirst (pat s : Str) : Str :=
  match (matchIndicesFrom pat s 0).head? with
  | some i => s.take i
  | none => s

/-- Model of `s.split(pat).last()`: the text after the last match of `pat`
(the whole of `s` when there is no match). -/
def splitLast (pat s : Str) : Str :=
  match (matchIndicesFrom pat s 0).getLast? with
  | some i => s.drop (i + pat.length)
  | none => s

/-! ## Exact rational model of `f64` values -/

/-- An exact rational (numerator/denominator, not normalised).  All `f64`
values produced by the parser are finite decimals, which this type tracks
exactly; no normalisation is performed so that every operation is
kernel-reducible. -/
structure QR where
  num : Int
  den : Int
deriving DecidableEq, Repr

/-- The integer `n` as a `QR`. -/
def QR.ofInt (n : Int) : QR := ⟨n, 1⟩

/-- Addition of exact rationals. -/
def QR.add (a b : QR) : QR := ⟨a.num * b.den + b.num * a.den, a.den * b.den⟩

/-- Multiplication of exact rationals. -/
def QR.mul (a b : QR) : QR := ⟨a.num * b.num, a.den * b.den⟩

/-- Value equality of exact rationals (cross multiplication). -/
def QR.eqv (a b : QR) : Prop := a.num * b.den = b.num * a.den

instance (a b : QR) : Decidable (a.eqv b) := by
  unfold QR.eqv; infer_instance

/-! ## Numeric token parsing (model of `str::parse::<f64>()`) -/

/-- Decimal digit test used by the numeric grammar. -/
def isDigitCh (c : Char) : Bool := (chars "0123456789").contains c

/-- Numeric value of a digit string (most significant first). -/
def natOfDigits (l : Str) : Nat := l.foldl (fun a c => a * 10 + (c.toNat - 48)) 0

/-- `10^z` as an exact rational, for an integer exponent. -/
def qpow10 (z : Int) : QR :=
  if 0 ≤ z then ⟨(10 : Nat) ^ z.toNat, 1⟩ else ⟨1, (10 : Nat) ^ (-z).toNat⟩

/-- Exponent part of the float grammar: optional sign then at least one
digit. -/
def parseExp? (t : Str) : Option Int :=
  let st : Int × Str :=
    match t with
    | c :: r => if c = '+' then (1, r) else if c = '-' then (-1, r) else (1, t)
    | [] => (1, t)
  if !st.2.isEmpty && st.2.all isDigitCh then
    some (st.1 * (natOfDigits st.2 : Int))
  else
    none

/-- Model of `str::parse::<f64>()` on the finite-decimal grammar
`[sign] (digits [. digits*] | . digits) [(e|E) [sign] digits]`, returning the
exact rational value.  (The special values `inf`/`NaN` accepted by Rust have
no finite value and are outside the model; no measurement line produces
them.) -/
def parseF64? (s : Str) : Option QR :=
  let sgns : Int × Str :=
    match s with
    | c :: t => if c = '+' then (1, t) else if c = '-' then (-1, t) else (1, s)
    | [] => (1, s)
  let intPart := sgns.2.takeWhile isDigitCh
  let s2 := sgns.2.dropWhile isDigitCh
  let fr : Str × Str :=
    match s2 with
    | c :: t => if c = '.' then (t.takeWhile isDigitCh, t.dropWhile isDigitCh) else ([], s2)
    | [] => ([], s2)
  if intPart.isEmpty && fr.1.isEmpty then none
  else
    let mant : QR :=
      QR.mul (QR.ofInt sgns.1)
        (QR.add (QR.ofInt (natOfDigits intPart))
          ⟨(natOfDigits fr.1 : Int), ((10 : Nat) ^ fr.1.length : Nat)⟩)
    match fr.2 with
    | [] => some mant
    | c :: t =>
      if c = 'e' || c = 'E' then (parseExp? t).map (fun e => QR.mul mant (qpow10 e))
      else none

/-! ## The measurement line parser (`child_commands` in `all.rs`) -/

/-- `fn parse_to_float(s, postfix)`: the text before the first occurrence of
`postfix`, parsed as a float. -/
def parse_to_float (s sfx : Str) : Option QR :=
  parseF64? (splitFirst sfx s)

/-- `fn parse_time(line)`: extract the duration token (before the first
`" samples)"`, after the last `'('`, before the first `'@'`, trimmed) and
classify it by unit suffix: `ns` direct, `µs` ×1000, `ms` ×1e6, otherwise
seconds ×1e9. -/
def parse_time (line : Str) : Option (Str × QR) :=
  let str_timing :=
    trim (splitFirst (chars "@") (splitLast (chars "(") (splitFirst (chars " samples)") line)))
  let parsed_timing : Option QR :=
    if containsSub (chars "ns") str_timing then
      parseF64? (splitFirst (chars "ns") str_timing)
    else if containsSub (microSign :: chars "s") str_timing then
      (parse_to_float str_timing (microSign :: chars "s")).map (fun x => QR.mul x (QR.ofInt 1000))
    else if containsSub (chars "ms") str_timing then
      (parse_to_float str_timing (chars "ms")).map (fun x => QR.mul x (QR.ofInt 1000000))
    else
      (parse_to_float str_timing (chars "s")).map (fun x => QR.mul x (QR.ofInt 1000000000))
  parsed_timing.map (fun v => (str_timing, v))

/-- `fn parse_heap_allocation(line)`: the text after the last `") ("`, before
the next `')'`, trimmed; it must contain the character `'B'`. -/
def parse_heap_allocation (line : Str) : Option Str :=
  let str_heap_allocation := trim (splitFirst (chars ")") (splitLast (chars ") (") line))
  if str_heap_allocation.contains 'B' then some str_heap_allocation else none

/-- The per-line closure inside `parse_exec_bench`'s `filter_map`: produces
`(part label, time display, nanoseconds, memory display)` for a measurement
line, `none` otherwise. -/
def parseLine (l : Str) : Option (Str × Str × QR × Str) :=
  let part := splitFirst (chars ":") l
  match parse_heap_allocation l with
  | none => none
  | some heap_allocation =>
    if !containsSub (chars " samples)") l then
      some (part, [], QR.ofInt 0, heap_allocation)
    else
      match parse_time l with
      | none => none
      | some (timing_str, nanos) => some (part, timing_str, nanos, heap_allocation)

/-! ## The benchmark aggregator -/

/-- `struct Benchmark` of `readme_benchmarks.rs`.  The day is modelled as a
bare number (`struct Day(u8)` lives outside the provided sources; per the
spec it is an integer in `1..=25`). -/
structure Benchmark where
  day : Nat
  part_1 : Option (Str × Str)
  part_2 : Option (Str × Str)
  total_nanos : QR
deriving DecidableEq, Repr

/-- The `for_each` body of `parse_exec_bench`: route the record's display pair
to part 1 or part 2 by label and accumulate its nanoseconds into the total. -/
def applyRecord (b : Benchmark) (r : Str × Str × QR × Str) : Benchmark :=
  let b' :=
    if containsSub (chars "Part 1") r.1 then { b with part_1 := some (r.2.1, r.2.2.2) }
    else if containsSub (chars "Part 2") r.1 then { b with part_2 := some (r.2.1, r.2.2.2) }
    else b
  { b' with total_nanos := QR.add b'.total_nanos r.2.2.1 }

/-- `fn parse_exec_bench(output, day)`: fold the parsed records of one unit's
captured output lines into a `Benchmark`. -/
def parse_exec_bench (output : List Str) (day : Nat) : Benchmark :=
  (output.filterMap parseLine).foldl applyRecord
    { day := day, part_1 := none, part_2 := none, total_nanos := QR.ofInt 0 }

/-! ## The document patcher (`readme_benchmarks.rs`) -/

/-- The fixed marker token delimiting the benchmarking table in the README. -/
def MARKER : Str := chars "<!--- benchmarking table --->"

/-- The heading line rendered by the patcher. -/
def HEADING : Str := chars "## Benchmarks"

/-- `enum Error` of `readme_benchmarks.rs` (the `io::Error` payload carries no
information used here). -/
inductive RbError where
  | parser (msg : Str)
  | io
deriving DecidableEq

deriving instance DecidableEq for Except

/-- `struct TablePosition`. -/
structure TablePosition where
  pos_start : Nat
  pos_end : Nat
deriving DecidableEq

/-- `fn locate_table(readme)`: all marker matches; more than two is an error;
`pos_start` is the start of the first match, `pos_end` the end of the last. -/
def locate_table (readme : Str) : Except RbError TablePosition :=
  let occs := matchIndicesFrom MARKER readme 0
  if occs.length > 2 then
    .error (.parser (chars "{}: too many occurences of marker in README."))
  else
    match occs.head? with
    | none => .error (.parser (chars "Could not find table start position."))
    | some s =>
      match occs.getLast? with
      | none => .error (.parser (chars "Could not find table end position."))
      | some e => .ok ⟨s, e + MARKER.length⟩

/-- Decimal digit characters. -/
def digitChar (n : Nat) : Char :=
  match n with
  | 0 => '0' | 1 => '1' | 2 => '2' | 3 => '3' | 4 => '4'
  | 5 => '5' | 6 => '6' | 7 => '7' | 8 => '8' | _ => '9'

/-- Fuel-driven decimal rendering of a natural number. -/
def natDigitsAux : Nat → Nat → Str
  | 0, _ => []
  | f + 1, n => if n < 10 then [digitChar n] else natDigitsAux f (n / 10) ++ [digitChar (n % 10)]

/-- Decimal rendering of a natural number. -/
def natDigits (n : Nat) : Str := natDigitsAux (n + 1) n

/-- The day number as displayed by `Day` (two digits, zero padded), per the
spec's fixed-width rendering and the repository's own test expectations. -/
def dayPad (n : Nat) : Str := if n < 10 then '0' :: natDigits n else natDigits n

/-- `fn get_path_for_bin(day)`. -/
def get_path_for_bin (day : Nat) : Str :=
  chars "./src/bin/" ++ dayPad day ++ chars ".rs"

/-- Rendering of `{q:.2}`: the value to two decimal places (half-up
rounding; only the digit/dot/sign character shape matters for the theorems
below). -/
def formatFixed2 (q : QR) : Str :=
  let cents : Int := Int.fdiv (q.num * 200 + q.den) (q.den * 2)
  let sign : Str := if cents < 0 then ['-'] else []
  let n : Nat := cents.natAbs
  sign ++ natDigits (n / 100) ++ ['.'] ++
    (if n % 100 < 10 then '0' :: natDigits (n % 100) else natDigits (n % 100))

/-- One row of the rendered table:
`| [Day {n}]({path}) | `{t1}` `{m1}` | `{t2}` `{m2}` |`. -/
def benchRow (bench : Benchmark) : Str :=
  let path := get_path_for_bin bench.day
  let p1 := bench.part_1.getD (chars "-", chars "-")
  let p2 := bench.part_2.getD (chars "-", chars "-")
  chars "| [Day " ++ natDigits bench.day ++ chars "](" ++ path ++ chars ") | `" ++
    p1.1 ++ chars "` `" ++ p1.2 ++ chars "` | `" ++
    p2.1 ++ chars "` `" ++ p2.2 ++ chars "` |"

/-- `Vec::join("\n")`. -/
def joinLines : List Str → Str
  | [] => []
  | [l] => l
  | l :: ls => l ++ '\n' :: joinLines ls

/-- The final `**Total time: {total_millis:.2}ms**\n` line. -/
def totalLine (total_millis : QR) : Str :=
  chars "**Total time: " ++ formatFixed2 total_millis ++ chars "ms**" ++ ['\n']

/-- `fn construct_table(prefix, benchmarks, total_millis)`. -/
def construct_table (pfx : Str) (benchmarks : List Benchmark) (total_millis : QR) : Str :=
  let header := pfx ++ chars " Benchmarks"
  let lines : List Str :=
    [MARKER, header, [], chars "| Day | Part 1 | Part 2 |", chars "| :---: | :---: | :---:  |"]
      ++ benchmarks.map benchRow
      ++ [[], totalLine total_millis, MARKER]
  joinLines lines

/-- `fn update_content(s, timings, total_millis)`: locate the table span and
replace `pos_start..pos_end` with a freshly constructed table (the returned
string models Rust's in-place `replace_range`). -/
def update_content (s : Str) (timings : List Benchmark) (total_millis : QR) :
    Except RbError Str :=
  match locate_table s with
  | .error e => .error e
  | .ok positions =>
    .ok (s.take positions.pos_start ++ construct_table (chars "##") timings total_millis ++
      s.drop positions.pos_end)

/-! ## The process orchestrator (`run_solution` in `all.rs`)

The interactions with the operating system (file probe, process spawn, the
two piped streams, `wait`) are modelled by an explicit environment record;
`run_solution` is the source's control flow over that environment.  Line
reads are modelled as succeeding (the source `unwrap`s them, aborting the
process otherwise). -/

/-- Outcome environment for one child invocation. -/
structure ChildEnv where
  /-- Does `./src/bin/{day}.rs` exist? (`Path::new(..).exists()`) -/
  binExists : Bool
  /-- Did `Command::spawn()` succeed? -/
  spawnOk : Bool
  /-- Was `cmd.stdout.take()` some? -/
  stdoutPipe : Bool
  /-- Was `cmd.stderr.take()` some? -/
  stderrPipe : Bool
  /-- The lines the child wrote to stdout. -/
  stdoutLines : List Str
  /-- The lines the child wrote to stderr (forwarded, never parsed). -/
  stderrLines : List Str
  /-- Did `cmd.wait()` itself succeed (an I/O result, NOT the exit status)? -/
  waitOk : Bool
  /-- The child's exit code as reported by the status `wait` returned. -/
  exitCode : Nat
deriving DecidableEq

/-- `enum Error` of `all.rs`. -/
inductive RunError where
  | brokenPipe
  | parser (msg : Str)
  | io
deriving DecidableEq

/-- `fn run_solution(day, is_timed, is_release)` over a `ChildEnv`: skip
missing binaries with an empty success, propagate spawn/pipe/wait failures,
and otherwise return the captured stdout lines.  Note the source discards the
exit status returned by `cmd.wait()` — `env.exitCode` is deliberately unused,
mirroring `cmd.wait()?;`. -/
def run_solution (env : ChildEnv) (day : Nat) (is_timed is_release : Bool) :
    Except RunError (List Str) :=
  if !env.binExists then .ok []
  else if !env.spawnOk then .error .io
  else if !env.stdoutPipe then .error .brokenPipe
  else if !env.stderrPipe then .error .brokenPipe
  else if !env.waitOk then .error .io
  else .ok env.stdoutLines

/-! ## Spec-side definitions (for refinement statements) -/

/-- Modelled from the spec (§4.1 step 5): classify the duration token by unit
suffix in priority order — `ns` parsed directly, the microsecond symbol
×1,000, `ms` ×1,000,000, otherwise the prefix before a trailing `s`
×1,000,000,000 — where the numeric prefix is the text before the first
occurrence of the suffix. -/
def specDurationNanos (d : Str) : Option QR :=
  if containsSub (chars "ns") d then
    parseF64? (splitFirst (chars "ns") d)
  else if containsSub (microSign :: chars "s") d then
    (parseF64? (splitFirst (microSign :: chars "s") d)).map (fun x => QR.mul x (QR.ofInt 1000))
  else if containsSub (chars "ms") d then
    (parseF64? (splitFirst (chars "ms") d)).map (fun x => QR.mul x (QR.ofInt 1000000))
  else
    (parseF64? (splitFirst (chars "s") d)).map (fun x => QR.mul x (QR.ofInt 1000000000))

/-- The measurement-line shape of the spec's §8 first property:
`<label>: <value> (<duration> @ <count> samples) (<memory>)`. -/
def mkLine (lab v d k m : Str) : Str :=
  lab ++ chars ": " ++ v ++ chars " (" ++ d ++ chars " @ " ++ k ++
    chars " samples) (" ++ m ++ chars ")"

/-- A pattern has no non-trivial self-overlap: no proper non-empty suffix of
it is one of its own prefixes.  All patterns searched for by the program
satisfy this, which makes the left-to-right scan find every occurrence. -/
def noOverlap (pat : Str) : Bool :=
  (List.range pat.length).all fun k => k == 0 || !(pat.drop k).isPrefixOf pat

/-- Display strings free of the marker-start and heading-start characters. -/
def cleanStr (s : Str) : Prop := '<' ∉ s ∧ '#' ∉ s

instance (s : Str) : Decidable (cleanStr s) := by
  unfold cleanStr; infer_instance

/-- Both display strings of an optional part cell are clean. -/
def cleanPair : Option (Str × Str) → Prop
  | none => True
  | some (t, m) => cleanStr t ∧ cleanStr m

instance (o : Option (Str × Str)) : Decidable (cleanPair o) :=
  match o with
  | none => inferInstanceAs (Decidable True)
  | some (_, _) => inferInstanceAs (Decidable (_ ∧ _))

/-- All display strings of a benchmark are clean. -/
def cleanBench (b : Benchmark) : Prop := cleanPair b.part_1 ∧ cleanPair b.part_2

instance (b : Benchmark) : Decidable (cleanBench b) :=
  inferInstanceAs (Decidable (_ ∧ _))

/-- The rendered lines of the table strictly between the two markers, after
the heading. -/
def innerRest (bs : List Benchmark) (t : QR) : List Str :=
  [[], chars "| Day | Part 1 | Part 2 |", chars "| :---: | :---: | :---:  |"]
    ++ bs.map benchRow ++ [[], totalLine t]

/-- The rendered lines of the table strictly between the two markers. -/
def innerList (bs : List Benchmark) (t : QR) : List Str :=
  HEADING :: innerRest bs t

/-- The text of the rendered table strictly between its two markers. -/
def midOf (bs : List Benchmark) (t : QR) : Str :=
  '\n' :: (joinLines (innerList bs t) ++ ['\n'])

/-- The text of `midOf` after its leading `"\n##"`. -/
def midTail (bs : List Benchmark) (t : QR) : Str :=
  chars " Benchmarks" ++ ('\n' :: joinLines (innerRest bs t)) ++ ['\n']

/-! # Infrastructure lemmas

`pat <+: s.drop r` states that an occurrence of `pat` starts at offset `r`
of `s` (it automatically forces `r + pat.length ≤ s.length`). -/

theorem take_isPre (l : Str) (n : Nat) : l.take n <+: l :=
  ⟨l.drop n, List.take_append_drop n l⟩

theorem prefix_extend {pat x y : Str} (h : pat <+: x) : pat <+: x ++ y :=
  h.trans (List.prefix_append x y)

theorem prefix_shrink {pat x y : Str} (h : pat <+: x ++ y)
    (hl : pat.length ≤ x.length) : pat <+: x :=
  List.prefix_of_prefix_length_le h (List.prefix_append x y) hl

theorem prefix_take_of_le {pat x : Str} (h : pat <+: x) (hl : pat.length ≤ k) :
    pat <+: x.take k := by
  obtain ⟨t, rfl⟩ := h
  rw [List.take_append_eq_append_take, List.take_of_length_le hl]
  exact List.prefix_append _ _

theorem prefix_of_take {pat x : Str} (h : pat <+: x.take k) : pat <+: x :=
  h.trans (take_isPre x k)

theorem drop_of_prefix {pat u v : Str} (h : pat <+: u ++ v)
    (hl : u.length ≤ pat.length) : pat.drop u.length <+: v := by
  obtain ⟨w, hw⟩ := h
  refine ⟨w, ?_⟩
  have h2 := congrArg (List.drop u.length) hw
  rw [List.drop_append_eq_append_drop, List.drop_left] at h2
  rwa [show u.length - pat.length = 0 by omega, List.drop_zero] at h2

theorem noOverlap_spec {pat : Str} (hno : noOverlap pat = true) {k : Nat}
    (h0 : 0 < k) (hk : k < pat.length) : ¬ pat.drop k <+: pat := by
  intro hpre
  have := List.all_eq_true.mp hno k (List.mem_range.mpr hk)
  simp only [Bool.or_eq_true, beq_iff_eq, Bool.not_eq_true'] at this
  rcases this with h | h
  · omega
  · exact absurd (List.isPrefixOf_iff_prefix.mpr hpre) (by simp [h])

theorem overlap_kill {pat w : Str} (hno : noOverlap pat = true) {k : Nat}
    (h : pat <+: pat.drop k ++ w) (h0 : 0 < k) (hk : k < pat.length) : False := by
  have hlen : (pat.drop k).length ≤ pat.length := by
    simp [List.length_drop]
  have : pat.drop k <+: pat :=
    List.prefix_of_prefix_length_le (List.prefix_append _ _) h hlen
  exact noOverlap_spec hno h0 hk this

theorem occurs_cover {pat s : Str} {r k : Nat} (h : pat <+: s.drop r)
    (hk : k < pat.length) : s[r + k]? = pat[k]? := by
  obtain ⟨t, ht⟩ := h
  rw [← List.getElem?_drop, ← ht, List.getElem?_append, if_pos hk]

theorem occurs_cover_mem {pat s : Str} {r i : Nat} {ch : Char}
    (h : pat <+: s.drop r) (hri : r ≤ i) (hir : i < r + pat.length)
    (hch : s[i]? = some ch) : pat[i - r]? = some ch := by
  have := occurs_cover h (k := i - r) (by omega)
  rw [show r + (i - r) = i by omega] at this
  rw [← this, hch]

theorem occurs_drop {pat s : Str} {n j : Nat} :
    pat <+: (s.drop n).drop j ↔ pat <+: s.drop (n + j) := by
  rw [List.drop_drop]

theorem occurs_append_right {pat a x : Str} (j : Nat) :
    pat <+: (a ++ x).drop (a.length + j) ↔ pat <+: x.drop j := by
  rw [List.drop_append_eq_append_drop,
    List.drop_eq_nil_of_le (by omega : a.length ≤ a.length + j),
    show a.length + j - a.length = j by omega, List.nil_append]

theorem occurs_append_fit {pat a x : Str} {r : Nat}
    (hr : r + pat.length ≤ a.length) :
    pat <+: (a ++ x).drop r ↔ pat <+: a.drop r := by
  rw [List.drop_append_eq_append_drop, show r - a.length = 0 by omega, List.drop_zero]
  constructor
  · intro h
    exact prefix_shrink h (by simp [List.length_drop]; omega)
  · intro h
    exact prefix_extend h

theorem occurs_take_fit {pat s : Str} {r n : Nat}
    (hr : r + pat.length ≤ n) :
    pat <+: (s.take n).drop r ↔ pat <+: s.drop r := by
  rw [List.drop_take]
  constructor
  · intro h
    exact prefix_of_take h
  · intro h
    exact prefix_take_of_le h (by omega)

theorem occurs_agree {pat s s' : Str} {r n : Nat}
    (hag : s.take n = s'.take n) (hr : r + pat.length ≤ n) :
    pat <+: s.drop r ↔ pat <+: s'.drop r := by
  rw [← occurs_take_fit hr, hag, occurs_take_fit hr]

theorem single_occurs {c : Char} {x : Str} :
    [c] <+: x ↔ x.head? = some c := by
  cases x with
  | nil => simp
  | cons d t =>
    constructor
    · rintro ⟨w, hw⟩
      simp only [List.singleton_append, List.cons.injEq] at hw
      simp [hw.1]
    · intro h
      simp only [List.head?_cons, Option.some.injEq] at h
      exact ⟨t, by simp [h]⟩

theorem single_occurs_getElem {c : Char} {s : Str} {r : Nat} :
    [c] <+: s.drop r ↔ s[r]? = some c := by
  rw [single_occurs, show s[r]? = (s.drop r)[0]? by simp [List.getElem?_drop]]
  cases hd : s.drop r <;> simp

theorem single_occurs_mem {c : Char} {s : Str} {r : Nat}
    (h : [c] <+: s.drop r) : c ∈ s := by
  have := single_occurs_getElem.mp h
  exact List.getElem?_mem this

theorem noOverlap_single (c : Char) : noOverlap [c] = true := by
  simp [noOverlap, List.range_succ]

theorem miAux_fuelFree {pat : Str} (hp : pat ≠ []) :
    ∀ f g s i, s.length ≤ f → s.length ≤ g → miAux pat f s i = miAux pat g s i := by
  intro f
  induction f with
  | zero =>
    intro g s i hf _
    have : s = [] := List.length_eq_zero.mp (by omega)
    subst this
    cases g <;> simp [miAux]
  | succ f ih =>
    intro g s i hf hg
    cases s with
    | nil => cases g <;> simp [miAux]
    | cons c rest =>
      have hL : 1 ≤ pat.length := List.length_pos.mpr hp
      cases g with
      | zero => simp at hg
      | succ g =>
        simp only [miAux]
        by_cases hpre : pat.isPrefixOf (c :: rest)
        · simp only [hpre, if_true]
          have hd : ((c :: rest).drop pat.length).length ≤ f := by
            simp only [List.length_drop, List.length_cons] at *
            omega
          have hd2 : ((c :: rest).drop pat.length).length ≤ g := by
            simp only [List.length_drop, List.length_cons] at *
            omega
          rw [ih g _ _ hd hd2]
        · simp only [hpre, Bool.false_eq_true, if_false]
          have h1 : rest.length ≤ f := by simp at hf; omega
          have h2 : rest.length ≤ g := by simp at hg; omega
          rw [ih g _ _ h1 h2]

theorem mi_cons {pat : Str} (hp : pat ≠ []) (c : Char) (rest : Str) (i : Nat) :
    matchIndicesFrom pat (c :: rest) i =
      if pat.isPrefixOf (c :: rest) then
        i :: matchIndicesFrom pat ((c :: rest).drop pat.length) (i + pat.length)
      else
        matchIndicesFrom pat rest (i + 1) := by
  have hL : 1 ≤ pat.length := List.length_pos.mpr hp
  show miAux pat (rest.length + 1) (c :: rest) i = _
  simp only [miAux]
  by_cases hpre : pat.isPrefixOf (c :: rest)
  · simp only [hpre, if_true]
    rw [miAux_fuelFree hp rest.length ((c :: rest).drop pat.length).length]
    · rfl
    · simp only [List.length_drop, List.length_cons]
      omega
    · rfl
  · simp only [hpre, Bool.false_eq_true, if_false]
    rfl

theorem mi_sound {pat : Str} (hp : pat ≠ []) :
    ∀ n s i r, s.length ≤ n → r ∈ matchIndicesFrom pat s i →
      ∃ j, r = i + j ∧ pat <+: s.drop j := by
  intro n
  induction n with
  | zero =>
    intro s i r hlen hr
    have : s = [] := List.length_eq_zero.mp (by omega)
    subst this
    simp [matchIndicesFrom, miAux] at hr
  | succ n ih =>
    intro s i r hlen hr
    have hL : 1 ≤ pat.length := List.length_pos.mpr hp
    cases s with
    | nil => simp [matchIndicesFrom, miAux] at hr
    | cons c rest =>
      rw [mi_cons hp] at hr
      by_cases hpre : pat.isPrefixOf (c :: rest)
      · simp only [hpre, if_true, List.mem_cons] at hr
        rcases hr with rfl | hr
        · exact ⟨0, rfl, by simpa using List.isPrefixOf_iff_prefix.mp hpre⟩
        · obtain ⟨j, hj, hocc⟩ := ih _ _ _
            (by simp only [List.length_drop, List.length_cons] at hlen ⊢; omega) hr
          refine ⟨pat.length + j, by omega, ?_⟩
          rwa [List.drop_drop] at hocc
      · simp only [hpre, Bool.false_eq_true, if_false] at hr
        obtain ⟨j, hj, hocc⟩ := ih _ _ _ (by simp at hlen ⊢; omega) hr
        exact ⟨j + 1, by omega, by simpa using hocc⟩

theorem mi_complete {pat : Str} (hp : pat ≠ []) (hno : noOverlap pat = true) :
    ∀ n s i j, s.length ≤ n → pat <+: s.drop j → (i + j) ∈ matchIndicesFrom pat s i := by
  intro n
  induction n with
  | zero =>
    intro s i j hlen hocc
    have : s = [] := List.length_eq_zero.mp (by omega)
    subst this
    simp only [List.drop_nil] at hocc
    exact absurd (List.eq_nil_of_prefix_nil hocc) hp
  | succ n ih =>
    intro s i j hlen hocc
    have hL : 1 ≤ pat.length := List.length_pos.mpr hp
    cases s with
    | nil =>
      simp only [List.drop_nil] at hocc
      exact absurd (List.eq_nil_of_prefix_nil hocc) hp
    | cons c rest =>
      rw [mi_cons hp]
      by_cases hpre : pat.isPrefixOf (c :: rest)
      · simp only [hpre, if_true]
        have hp0 : pat <+: (c :: rest) := List.isPrefixOf_iff_prefix.mp hpre
        rcases Nat.lt_or_ge j pat.length with hj | hj
        · rcases Nat.eq_zero_or_pos j with rfl | hj0
          · exact List.mem_cons_self _ _
          · exfalso
            obtain ⟨w, hw⟩ := hp0
            rw [show (c :: rest).drop j = pat.drop j ++ w by
              rw [← hw, List.drop_append_eq_append_drop, show j - pat.length = 0 by omega,
                List.drop_zero]] at hocc
            exact overlap_kill hno hocc hj0 hj
        · have : pat <+: ((c :: rest).drop pat.length).drop (j - pat.length) := by
            rwa [List.drop_drop, show pat.length + (j - pat.length) = j by omega]
          have hmem := ih ((c :: rest).drop pat.length) (i + pat.length) (j - pat.length)
            (by simp only [List.length_drop, List.length_cons] at hlen ⊢; omega) this
          rw [show i + pat.length + (j - pat.length) = i + j by omega] at hmem
          exact List.mem_cons_of_mem _ hmem
      · simp only [hpre, Bool.false_eq_true, if_false]
        cases j with
        | zero =>
          rw [List.drop_zero] at hocc
          exact absurd (List.isPrefixOf_iff_prefix.mpr hocc) hpre
        | succ j =>
          have : pat <+: rest.drop j := by simpa using hocc
          have hmem := ih rest (i + 1) j (by simp at hlen ⊢; omega) this
          rw [show i + 1 + j = i + (j + 1) by omega] at hmem
          exact hmem

theorem mi_lb {pat : Str} (hp : pat ≠ []) :
    ∀ n s i r, s.length ≤ n → r ∈ matchIndicesFrom pat s i → i ≤ r := by
  intro n s i r hlen hr
  obtain ⟨j, rfl, _⟩ := mi_sound hp n s i r hlen hr
  omega

theorem mi_pairwise {pat : Str} (hp : pat ≠ []) :
    ∀ n s i, s.length ≤ n → List.Pairwise (· < ·) (matchIndicesFrom pat s i) := by
  intro n
  induction n with
  | zero =>
    intro s i hlen
    have : s = [] := List.length_eq_zero.mp (by omega)
    subst this
    simp [matchIndicesFrom, miAux]
  | succ n ih =>
    intro s i hlen
    have hL : 1 ≤ pat.length := List.length_pos.mpr hp
    cases s with
    | nil => simp [matchIndicesFrom, miAux]
    | cons c rest =>
      rw [mi_cons hp]
      by_cases hpre : pat.isPrefixOf (c :: rest)
      · simp only [hpre, if_true]
        have hdl : ((c :: rest).drop pat.length).length ≤ n := by
          simp only [List.length_drop, List.length_cons] at hlen ⊢
          omega
        refine List.Pairwise.cons ?_ (ih _ _ hdl)
        intro r hr
        have := mi_lb hp n _ _ r hdl hr
        omega
      · simp only [hpre, Bool.false_eq_true, if_false]
        exact ih rest (i + 1) (by simp at hlen ⊢; omega)

theorem mi_occurs {pat s : Str} (hp : pat ≠ []) {r : Nat}
    (hr : r ∈ matchIndicesFrom pat s 0) : pat <+: s.drop r := by
  obtain ⟨j, hj, hocc⟩ := mi_sound hp s.length s 0 r le_rfl hr
  rwa [show r = j by omega]

theorem mi_mem {pat s : Str} (hp : pat ≠ []) (hno : noOverlap pat = true) {r : Nat}
    (hocc : pat <+: s.drop r) : r ∈ matchIndicesFrom pat s 0 := by
  have := mi_complete hp hno s.length s 0 r le_rfl hocc
  simpa using this

theorem mi_sorted {pat s : Str} (hp : pat ≠ []) :
    List.Pairwise (· < ·) (matchIndicesFrom pat s 0) :=
  mi_pairwise hp s.length s 0 le_rfl

theorem containsSub_of_occurs {pat s : Str} (hp : pat ≠ []) (hno : noOverlap pat = true)
    {r : Nat} (hocc : pat <+: s.drop r) : containsSub pat s = true := by
  have := mi_mem hp hno hocc
  unfold containsSub
  cases h : matchIndicesFrom pat s 0 with
  | nil => rw [h] at this; simp at this
  | cons a t => simp

theorem not_occurs_of_containsSub {pat s : Str} (hp : pat ≠ [])
    (hno : noOverlap pat = true) (h : containsSub pat s = false) (r : Nat) :
    ¬ pat <+: s.drop r := by
  intro hocc
  have hmem := mi_mem hp hno hocc
  unfold containsSub at h
  cases hmi : matchIndicesFrom pat s 0 with
  | nil => rw [hmi] at hmem; simp at hmem
  | cons a t => rw [hmi] at h; simp at h

theorem sorted_mem_single {l : List Nat} {p : Nat} (hs : List.Pairwise (· < ·) l)
    (hp : p ∈ l) (hall : ∀ x ∈ l, x = p) : l = [p] := by
  cases l with
  | nil => simp at hp
  | cons a t =>
    have ha : a = p := hall a (List.mem_cons_self a t)
    subst ha
    cases t with
    | nil => rfl
    | cons b t' =>
      have hb : b = a := hall b (by simp)
      have := (List.pairwise_cons.mp hs).1 b (by simp)
      omega

theorem sorted_mem_pair {l : List Nat} {p q : Nat} (hs : List.Pairwise (· < ·) l)
    (hpq : p < q) (hp : p ∈ l) (hq : q ∈ l) (hall : ∀ x ∈ l, x = p ∨ x = q) :
    l = [p, q] := by
  cases l with
  | nil => simp at hp
  | cons a t =>
    obtain ⟨ha1, ha2⟩ := List.pairwise_cons.mp hs
    have hap : a = p := by
      rcases hall a (by simp) with h | h
      · exact h
      · subst h
        rcases List.mem_cons.mp hp with h | h
        · omega
        · have := ha1 p h
          omega
    subst hap
    have hqt : q ∈ t := by
      rcases List.mem_cons.mp hq with h | h
      · omega
      · exact h
    cases t with
    | nil => simp at hqt
    | cons b t' =>
      obtain ⟨hb1, _⟩ := List.pairwise_cons.mp ha2
      have hba : a < b := ha1 b (by simp)
      have hbq : b = q := by
        rcases hall b (by simp) with h | h
        · omega
        · exact h
      subst hbq
      cases t' with
      | nil => rfl
      | cons e t'' =>
        have hbe : b < e := hb1 e (by simp)
        have hea : a < e := ha1 e (by simp)
        rcases hall e (by simp) with h | h <;> omega

theorem mi_eq_nil {pat s : Str} (hp : pat ≠ [])
    (h : ∀ r, ¬ pat <+: s.drop r) : matchIndicesFrom pat s 0 = [] := by
  cases hmi : matchIndicesFrom pat s 0 with
  | nil => rfl
  | cons a t =>
    have : a ∈ matchIndicesFrom pat s 0 := by rw [hmi]; simp
    exact absurd (mi_occurs hp this) (h a)

theorem mi_eq_single {pat s : Str} (hp : pat ≠ []) (hno : noOverlap pat = true)
    {p : Nat} (hocc : pat <+: s.drop p) (huniq : ∀ r, pat <+: s.drop r → r = p) :
    matchIndicesFrom pat s 0 = [p] := by
  refine sorted_mem_single (mi_sorted hp) (mi_mem hp hno hocc) ?_
  intro x hx
  exact huniq x (mi_occurs hp hx)

theorem mi_eq_pair {pat s : Str} (hp : pat ≠ []) (hno : noOverlap pat = true)
    {p q : Nat} (hpq : p < q) (hop : pat <+: s.drop p) (hoq : pat <+: s.drop q)
    (huniq : ∀ r, pat <+: s.drop r → r = p ∨ r = q) :
    matchIndicesFrom pat s 0 = [p, q] := by
  refine sorted_mem_pair (mi_sorted hp) hpq (mi_mem hp hno hop) (mi_mem hp hno hoq) ?_
  intro x hx
  exact huniq x (mi_occurs hp hx)

theorem splitFirst_splice {pat a z : Str} (hp : pat ≠ []) (hno : noOverlap pat = true)
    (h : ∀ r, ¬ pat <+: a.drop r) : splitFirst pat (a ++ pat ++ z) = a := by
  have hocc : pat <+: (a ++ pat ++ z).drop a.length := by
    rw [List.append_assoc, List.drop_left]
    exact List.prefix_append pat z
  have hnolt : ∀ r, r < a.length → ¬ pat <+: (a ++ pat ++ z).drop r := by
    intro r hr hocc'
    rcases Nat.lt_or_ge (r + pat.length) (a.length + 1) with hfit | hstr
    · rw [List.append_assoc, occurs_append_fit (by omega)] at hocc'
      exact h r hocc'
    · rw [List.append_assoc, List.drop_append_eq_append_drop,
        show r - a.length = 0 by omega, List.drop_zero] at hocc'
      have hd := drop_of_prefix hocc' (by simp [List.length_drop]; omega)
      rw [List.length_drop] at hd
      obtain ⟨w, hw⟩ := hd
      have hpre2 : pat <+: List.drop (a.length - r) pat ++ w := by
        rw [hw]
        exact List.prefix_append pat z
      exact overlap_kill hno hpre2 (by omega) (by omega)
  have hmem := mi_mem hp hno hocc
  unfold splitFirst
  cases hmi : matchIndicesFrom pat (a ++ pat ++ z) 0 with
  | nil => rw [hmi] at hmem; simp at hmem
  | cons x t =>
    have hxo : pat <+: (a ++ pat ++ z).drop x := mi_occurs hp (by rw [hmi]; simp)
    have hxa : a.length ≤ x := by
      by_contra hlt
      exact hnolt x (by omega) hxo
    have hax : x ≤ a.length := by
      rw [hmi] at hmem
      rcases List.mem_cons.mp hmem with h' | h' 
      · omega
      · have hsort := mi_sorted hp (s := a ++ pat ++ z)
        rw [hmi] at hsort
        have := (List.pairwise_cons.mp hsort).1 _ h'
        omega
    have : x = a.length := by omega
    subst this
    simp only [List.head?_cons]
    rw [List.append_assoc, List.take_left]

theorem getLast?_mem_list {l : List Nat} {m : Nat} (h : l.getLast? = some m) : m ∈ l := by
  obtain ⟨hne, heq⟩ := List.mem_getLast?_eq_getLast (x := m) (by rw [h]; rfl)
  rw [heq]
  exact List.getLast_mem hne

theorem sorted_getLast_max {l : List Nat} (hs : List.Pairwise (· < ·) l) :
    ∀ m, l.getLast? = some m → ∀ y ∈ l, y ≤ m := by
  induction l with
  | nil => intro m hm; simp at hm
  | cons a t ih =>
    intro m hm y hy
    cases t with
    | nil =>
      simp only [List.getLast?_singleton, Option.some.injEq] at hm
      simp only [List.mem_singleton] at hy
      omega
    | cons b t' =>
      rw [List.getLast?_cons_cons] at hm
      obtain ⟨h1, h2⟩ := List.pairwise_cons.mp hs
      rcases List.mem_cons.mp hy with rfl | hy'
      · have := h1 _ (getLast?_mem_list hm)
        omega
      · exact ih h2 m hm y hy'

theorem splitLast_splice {pat w z : Str} (hp : pat ≠ []) (hno : noOverlap pat = true)
    (h : ∀ j, ¬ pat <+: z.drop j) : splitLast pat (w ++ pat ++ z) = z := by
  have hocc : pat <+: (w ++ pat ++ z).drop w.length := by
    rw [List.append_assoc, List.drop_left]
    exact List.prefix_append pat z
  have hnogt : ∀ r, w.length < r → ¬ pat <+: (w ++ pat ++ z).drop r := by
    intro r hr hocc'
    rw [List.append_assoc, show r = w.length + (r - w.length) by omega,
      occurs_append_right] at hocc'
    set k := r - w.length with hk
    have hk0 : 0 < k := by omega
    rcases Nat.lt_or_ge k pat.length with hklt | hkge
    · rw [List.drop_append_eq_append_drop, show k - pat.length = 0 by omega,
        List.drop_zero] at hocc'
      exact overlap_kill hno hocc' hk0 hklt
    · rw [List.drop_append_eq_append_drop, List.drop_eq_nil_of_le (by omega),
        List.nil_append] at hocc'
      exact h (k - pat.length) hocc'
  have hmem := mi_mem hp hno hocc
  unfold splitLast
  cases hmi : matchIndicesFrom pat (w ++ pat ++ z) 0 with
  | nil => rw [hmi] at hmem; simp at hmem
  | cons x t =>
    have hlast : ∀ y ∈ (x :: t), y ≤ w.length := by
      intro y hy
      have hyo : pat <+: (w ++ pat ++ z).drop y := mi_occurs hp (by rw [hmi]; exact hy)
      by_contra hgt
      exact hnogt y (by omega) hyo
    have hwl : w.length ∈ (x :: t) := by rw [← hmi]; exact hmem
    have hsort := mi_sorted hp (s := w ++ pat ++ z)
    rw [hmi] at hsort
    have hm : (x :: t).getLast? = some ((x :: t).getLast (by simp)) :=
      List.getLast?_eq_getLast_of_ne_nil (by simp)
    have hmle : (x :: t).getLast (by simp) ≤ w.length :=
      hlast _ (getLast?_mem_list hm)
    have hwlm : w.length ≤ (x :: t).getLast (by simp) :=
      sorted_getLast_max hsort _ hm w.length hwl
    rw [hm, show (x :: t).getLast (by simp) = w.length by omega]
    simp only
    rw [List.append_assoc, show w.length + pat.length = (w ++ pat).length by simp,
      ← List.append_assoc, List.drop_left]

theorem splitFirst_id {pat s : Str} (hp : pat ≠ [])
    (h : ∀ r, ¬ pat <+: s.drop r) : splitFirst pat s = s := by
  unfold splitFirst
  rw [mi_eq_nil hp h]
  rfl

theorem splitLast_id {pat s : Str} (hp : pat ≠ [])
    (h : ∀ r, ¬ pat <+: s.drop r) : splitLast pat s = s := by
  unfold splitLast
  rw [mi_eq_nil hp h]
  rfl

theorem splitFirst_splice_char {c : Char} {a z : Str} (h : c ∉ a) :
    splitFirst [c] (a ++ [c] ++ z) = a := by
  refine splitFirst_splice (by simp) (noOverlap_single c) ?_
  intro r hocc
  exact h (single_occurs_mem hocc)

theorem splitLast_splice_char {c : Char} {w z : Str} (h : c ∉ z) :
    splitLast [c] (w ++ [c] ++ z) = z := by
  refine splitLast_splice (by simp) (noOverlap_single c) ?_
  intro j hocc
  exact h (single_occurs_mem hocc)

theorem splitFirst_id_char {c : Char} {s : Str} (h : c ∉ s) :
    splitFirst [c] s = s := by
  refine splitFirst_id (by simp) ?_
  intro r hocc
  exact h (single_occurs_mem hocc)

theorem dropWhile_all_false {p : Char → Bool} {s : Str}
    (h : ∀ c ∈ s, p c = false) : s.dropWhile p = s := by
  cases s with
  | nil => rfl
  | cons a t =>
    rw [List.dropWhile_cons, if_neg]
    simp [h a (by simp)]

theorem trim_all_notWs {s : Str} (h : ∀ c ∈ s, isWs c = false) : trim s = s := by
  unfold trim
  rw [dropWhile_all_false h, dropWhile_all_false (by intro c hc; exact h c (by simpa using hc))]
  simp

theorem trim_append_space (s : Str) : trim (s ++ [' ']) = trim s := by
  unfold trim
  rw [List.dropWhile_append]
  by_cases he : (s.dropWhile isWs).isEmpty
  · simp only [he, if_true]
    have hs : s.dropWhile isWs = [] := by simpa using he
    rw [hs]
    simp [List.dropWhile, isWs]
  · simp only [he, Bool.false_eq_true, if_false]
    rw [List.reverse_append]
    simp only [List.reverse_singleton, List.singleton_append]
    rw [List.dropWhile_cons, if_pos (by simp [isWs])]

theorem mem_trim {c : Char} {s : Str} (h : c ∈ trim s) : c ∈ s := by
  unfold trim at h
  rw [List.mem_reverse] at h
  have h1 := List.dropWhile_sublist (l := (s.dropWhile isWs).reverse) (p := isWs) |>.mem h
  rw [List.mem_reverse] at h1
  exact (List.dropWhile_sublist (l := s) (p := isWs)).mem h1

theorem mem_splitFirst {c : Char} {pat s : Str} (h : c ∈ splitFirst pat s) : c ∈ s := by
  unfold splitFirst at h
  cases hmi : (matchIndicesFrom pat s 0).head? with
  | none => rwa [hmi] at h
  | some i =>
    rw [hmi] at h
    exact List.take_subset i s h

theorem mem_splitLast {c : Char} {pat s : Str} (h : c ∈ splitLast pat s) : c ∈ s := by
  unfold splitLast at h
  cases hmi : (matchIndicesFrom pat s 0).getLast? with
  | none => rwa [hmi] at h
  | some i =>
    rw [hmi] at h
    exact List.drop_subset _ s h

theorem digit_facts {c : Char} (h : isDigitCh c = true) :
    c ≠ '+' ∧ c ≠ '-' ∧ c ≠ '.' ∧ c ≠ 'e' ∧ c ≠ 'E' ∧ isWs c = false ∧
    c ≠ '(' ∧ c ≠ '@' ∧ c ≠ 's' ∧ c ≠ 'n' ∧ c ≠ 'm' ∧ c ≠ microSign ∧ c ≠ ':' := by
  unfold isDigitCh at h
  rw [show chars "0123456789" = ['0','1','2','3','4','5','6','7','8','9'] from by decide] at h
  have hmem : c ∈ ['0','1','2','3','4','5','6','7','8','9'] := by simpa using h
  fin_cases hmem <;>
    exact ⟨by decide, by decide, by decide, by decide, by decide, by decide, by decide,
      by decide, by decide, by decide, by decide, by decide, by decide⟩

theorem mkLine_decomp₁ (lab v d k m : Str) :
    mkLine lab v d k m =
      (lab ++ chars ": " ++ v ++ chars " (" ++ d ++ chars " @ " ++ k) ++
        chars " samples)" ++ (chars " (" ++ m ++ chars ")") := by
  unfold mkLine
  rw [show chars " samples) (" = chars " samples)" ++ chars " (" from by decide]
  simp [List.append_assoc]

theorem mkLine_decomp₂ (lab v d k m : Str) :
    mkLine lab v d k m =
      (lab ++ chars ": " ++ v ++ chars " (" ++ d ++ chars " @ " ++ k ++ chars " samples") ++
        chars ") (" ++ (m ++ [')']) := by
  unfold mkLine
  rw [show chars " samples) (" = chars " samples" ++ chars ") (" from by decide,
    show chars ")" = [')'] from by decide]
  simp [List.append_assoc]

theorem splitFirst_samples (lab v d k m : Str)
    (h1 : containsSub (chars " samples)")
      (lab ++ chars ": " ++ v ++ chars " (" ++ d ++ chars " @ " ++ k) = false) :
    splitFirst (chars " samples)") (mkLine lab v d k m) =
      lab ++ chars ": " ++ v ++ chars " (" ++ d ++ chars " @ " ++ k := by
  rw [mkLine_decomp₁]
  exact splitFirst_splice (by decide) (by decide)
    (not_occurs_of_containsSub (by decide) (by decide) h1)

theorem occurs_atJunction (a pat z : Str) : pat <+: (a ++ pat ++ z).drop a.length := by
  rw [List.append_assoc a pat z, List.drop_left]
  exact List.prefix_append _ _

theorem mkLine_contains_samples (lab v d k m : Str) :
    containsSub (chars " samples)") (mkLine lab v d k m) = true := by
  rw [mkLine_decomp₁]
  exact containsSub_of_occurs (by decide) (by decide) (occurs_atJunction _ _ _)

theorem splitLast_paren (lab v d k : Str) (hpd : '(' ∉ d) (hpk : '(' ∉ k) :
    splitLast (chars "(") (lab ++ chars ": " ++ v ++ chars " (" ++ d ++ chars " @ " ++ k) =
      d ++ chars " @ " ++ k := by
  have ha : lab ++ chars ": " ++ v ++ chars " (" ++ d ++ chars " @ " ++ k =
      (lab ++ chars ": " ++ v ++ [' ']) ++ ['('] ++ (d ++ chars " @ " ++ k) := by
    rw [show chars " (" = [' '] ++ ['('] from by decide]
    simp [List.append_assoc]
  rw [ha, show chars "(" = ['('] from by decide]
  refine splitLast_splice_char ?_
  intro hmem
  simp only [List.mem_append] at hmem
  rcases hmem with (h | h) | h
  · exact hpd h
  · exact absurd h (by decide)
  · exact hpk h

theorem splitFirst_at (d k : Str) (had : '@' ∉ d) :
    splitFirst (chars "@") (d ++ chars " @ " ++ k) = d ++ [' '] := by
  have hz : d ++ chars " @ " ++ k = (d ++ [' ']) ++ ['@'] ++ ([' '] ++ k) := by
    rw [show chars " @ " = [' '] ++ ['@'] ++ [' '] from by decide]
    simp [List.append_assoc]
  rw [hz, show chars "@" = ['@'] from by decide]
  refine splitFirst_splice_char ?_
  intro hmem
  simp only [List.mem_append] at hmem
  rcases hmem with h | h
  · exact had h
  · exact absurd h (by decide)

theorem parse_time_wf (lab v d k m : Str)
    (h1 : containsSub (chars " samples)")
      (lab ++ chars ": " ++ v ++ chars " (" ++ d ++ chars " @ " ++ k) = false)
    (hpd : '(' ∉ d) (hpk : '(' ∉ k) (had : '@' ∉ d) (htd : trim d = d) :
    parse_time (mkLine lab v d k m) = (specDurationNanos d).map (fun n => (d, n)) := by
  unfold parse_time
  rw [splitFirst_samples lab v d k m h1, splitLast_paren lab v d k hpd hpk,
    splitFirst_at d k had, trim_append_space, htd]
  rfl

theorem parse_heap_wf (w m : Str) (hpm : ')' ∉ m) (htm : trim m = m) (hB : 'B' ∈ m) :
    parse_heap_allocation (w ++ chars ") (" ++ (m ++ [')'])) = some m := by
  have e1 : splitLast (chars ") (") (w ++ chars ") (" ++ (m ++ [')'])) = m ++ [')'] := by
    refine splitLast_splice (by decide) (by decide) ?_
    intro j hocc
    have hlen := hocc.length_le
    rw [List.length_drop] at hlen
    simp only [List.length_append, List.length_singleton] at hlen
    have hfit : (chars ") (").length = 3 := by decide
    rw [hfit] at hlen
    have hj : j < m.length := by omega
    have hc := occurs_cover hocc (k := 0) (by decide)
    rw [Nat.add_zero, List.getElem?_append, if_pos hj,
      show (chars ") (")[0]? = some ')' from by decide] at hc
    exact hpm (List.getElem?_mem hc)
  have e2 : splitFirst (chars ")") (m ++ [')']) = m := by
    rw [show chars ")" = [')'] from by decide,
      show m ++ [')'] = m ++ [')'] ++ ([] : Str) from by simp]
    exact splitFirst_splice_char hpm
  unfold parse_heap_allocation
  rw [e1, e2, htm, if_pos (by simpa using hB)]

theorem occurs_of_containsSub {pat s : Str} (hp : pat ≠ [])
    (h : containsSub pat s = true) : ∃ r, pat <+: s.drop r := by
  unfold containsSub at h
  cases hmi : matchIndicesFrom pat s 0 with
  | nil => rw [hmi] at h; simp at h
  | cons a t => exact ⟨a, mi_occurs hp (by rw [hmi]; simp)⟩

theorem occurs_head_mem {pat s : Str} {r : Nat} {c : Char}
    (hocc : pat <+: s.drop r) (hc : pat[0]? = some c) : c ∈ s := by
  have h0 : 0 < pat.length := by
    cases pat with
    | nil => simp at hc
    | cons a t => simp
  have := occurs_cover hocc (k := 0) h0
  rw [Nat.add_zero, hc] at this
  exact List.getElem?_mem this

theorem takeWhile_all {p : Char → Bool} {s : Str}
    (h : ∀ c ∈ s, p c = true) : s.takeWhile p = s := by
  induction s with
  | nil => rfl
  | cons a t ih =>
    rw [List.takeWhile_cons, if_pos (h a (by simp))]
    rw [ih (fun c hc => h c (by simp [hc]))]

theorem dropWhile_all_true {p : Char → Bool} {s : Str}
    (h : ∀ c ∈ s, p c = true) : s.dropWhile p = [] := by
  induction s with
  | nil => rfl
  | cons a t ih =>
    rw [List.dropWhile_cons, if_pos (h a (by simp))]
    exact ih (fun c hc => h c (by simp [hc]))

theorem parseF64_digits {d : Str} (hd : d ≠ [])
    (hdig : ∀ c ∈ d, isDigitCh c = true) :
    parseF64? d = some (QR.mul (QR.ofInt 1)
      (QR.add (QR.ofInt (natOfDigits d)) ⟨0, 1⟩)) := by
  obtain ⟨c0, d', rfl⟩ := List.exists_cons_of_ne_nil hd
  have h0 := digit_facts (hdig c0 (by simp))
  unfold parseF64?
  simp only [if_neg h0.1, if_neg h0.2.1]
  rw [takeWhile_all hdig, dropWhile_all_true hdig]
  rfl

theorem applyRecord_total (b : Benchmark) (r : Str × Str × QR × Str) :
    (applyRecord b r).total_nanos = QR.add b.total_nanos r.2.2.1 := by
  unfold applyRecord
  split_ifs <;> rfl

theorem total_foldl (rs : List (Str × Str × QR × Str)) (b : Benchmark) :
    (rs.foldl applyRecord b).total_nanos =
      rs.foldl (fun t r => QR.add t r.2.2.1) b.total_nanos := by
  induction rs generalizing b with
  | nil => rfl
  | cons r rs ih =>
    simp only [List.foldl_cons]
    rw [ih, applyRecord_total]

/-! # Claim theorems -/

/-- Claim C3: for every well-formed measurement line
`<lab>: <v> (<d> @ <k> samples) (<m>)` (where no stray `" samples)"` occurs
before the real one, `d` and `k` contain no `'('`, `d` contains no `'@'` and
is trimmed, and `m` is a trimmed `')'`-free memory figure containing `'B'`),
the parser returns a record whose `time_display` is the duration token `d`
verbatim and whose `time_nanos` is exactly the value assigned by the spec's
§4.1 step 5 unit rules (`specDurationNanos`), which check `ns`, the
microsecond symbol, `ms`, then a trailing `s` in that priority order.  Exact
value equality is stronger than the claimed 1e-6 relative tolerance. -/
theorem claim_C3_wellformed_line (lab v d k m : Str) (n : QR)
    (h1 : containsSub (chars " samples)")
      (lab ++ chars ": " ++ v ++ chars " (" ++ d ++ chars " @ " ++ k) = false)
    (hpd : '(' ∉ d) (hpk : '(' ∉ k) (had : '@' ∉ d) (htd : trim d = d)
    (hpm : ')' ∉ m) (htm : trim m = m) (hB : 'B' ∈ m)
    (hn : specDurationNanos d = some n) :
    parseLine (mkLine lab v d k m) =
      some (splitFirst (chars ":") (mkLine lab v d k m), d, n, m) := by
  unfold parseLine
  have hheap : parse_heap_allocation (mkLine lab v d k m) = some m := by
    rw [mkLine_decomp₂]
    exact parse_heap_wf _ m hpm htm hB
  rw [hheap, mkLine_contains_samples]
  simp only [Bool.not_true, Bool.false_eq_true, if_false]
  rw [parse_time_wf lab v d k m h1 hpd hpk had htd, hn]
  rfl

/-- Witness for C3 at the repository's own test line
`Part 1: 0 (74.13ns @ 100000 samples) (10KB)`. -/
theorem claim_C3_wellformed_line_witness :
    parseLine (mkLine (chars "Part 1") (chars "0") (chars "74.13ns")
        (chars "100000") (chars "10KB")) =
      some (splitFirst (chars ":") (mkLine (chars "Part 1") (chars "0")
        (chars "74.13ns") (chars "100000") (chars "10KB")),
        chars "74.13ns", ⟨7413, 100⟩, chars "10KB") :=
  claim_C3_wellformed_line (chars "Part 1") (chars "0") (chars "74.13ns")
    (chars "100000") (chars "10KB") ⟨7413, 100⟩ (by decide) (by decide) (by decide)
    (by decide) (by decide) (by decide) (by decide) (by decide) (by decide)

/-- Claim C5: the aggregator's `total_nanos` is the (left-fold) sum of
`time_nanos` over all parsed records — including records whose label matches
neither `"Part 1"` nor `"Part 2"`, which accrue to the total while being
excluded from the displayed columns — and on the two concrete lines
`Part 1: … 74.13ns …` and `Part 2: … 74.13ms …` of one unit the total is
exactly 74,130,074.13. -/
theorem claim_C5_total_accrues :
    (∀ (output : List Str) (day : Nat),
      (parse_exec_bench output day).total_nanos =
        (output.filterMap parseLine).foldl (fun t r => QR.add t r.2.2.1) (QR.ofInt 0)) ∧
    QR.eqv (parse_exec_bench
      [chars "Part 1: 0 (74.13ns @ 100000 samples) (10KB)",
       chars "Part 2: 10 (74.13ms @ 99999 samples) (10KB)"] 1).total_nanos
      ⟨7413007413, 100⟩ ∧
    (parse_exec_bench [chars "Other: 5 (2s @ 1 samples) (3B)"] 1).part_1 = none ∧
    (parse_exec_bench [chars "Other: 5 (2s @ 1 samples) (3B)"] 1).part_2 = none ∧
    QR.eqv (parse_exec_bench [chars "Other: 5 (2s @ 1 samples) (3B)"] 1).total_nanos
      ⟨2000000000, 1⟩ := by
  refine ⟨?_, by decide, by decide, by decide, by decide⟩
  intro output day
  unfold parse_exec_bench
  exact total_foldl _ _

/-- Claim C6: a line whose memory figure parses but which does not contain
`" samples)"` yields a record with empty `time_display`, `time_nanos` exactly
zero, and the parsed memory figure. -/
theorem claim_C6_no_timing (l mem : Str)
    (hheap : parse_heap_allocation l = some mem)
    (hns : containsSub (chars " samples)") l = false) :
    parseLine l = some (splitFirst (chars ":") l, [], QR.ofInt 0, mem) := by
  unfold parseLine
  rw [hheap, hns]
  rfl

/-- Witness for C6 on `Part 1: - (10B)` (memory figure parses, no samples). -/
theorem claim_C6_no_timing_witness :
    parseLine (chars "Part 1: - (10B)") =
      some (splitFirst (chars ":") (chars "Part 1: - (10B)"), [], QR.ofInt 0,
        chars "Part 1: - (10B") :=
  claim_C6_no_timing (chars "Part 1: - (10B)") (chars "Part 1: - (10B")
    (by decide) (by decide)

/-- Counterexample to claim C7 as stated: the line `Part 1: 5B` contains no
parenthesis at all — hence no parenthesized memory figure — yet the parser
returns a record rather than `None` (the memory extraction is anchored on
`") ("`/`")"` split results, which degrade to the whole line). -/
theorem claim_C7_counterexample :
    ('(' ∉ chars "Part 1: 5B") ∧ (')' ∉ chars "Part 1: 5B") ∧
    parseLine (chars "Part 1: 5B") =
      some (chars "Part 1", [], QR.ofInt 0, chars "Part 1: 5B") :=
  ⟨by decide, by decide, by decide⟩

/-- Claim C7 amended: the parser returns `None` exactly when the extracted
memory segment (text after the last `") ("`, before the next `')'`, trimmed
— the value of `parse_heap_allocation`) contains no `'B'`, or when the line
contains `" samples)"` but `parse_time` fails on its duration token.  In
particular every line containing no `'B'` character at all is rejected
regardless of timing content, and the `'B'`-tagged figure need not be
parenthesized. -/
theorem claim_C7_amended (l : Str) :
    ('B' ∉ l → parseLine l = none) ∧
    (parseLine l = none ↔
      (parse_heap_allocation l = none ∨
        (containsSub (chars " samples)") l = true ∧ parse_time l = none))) := by
  constructor
  · intro hB
    have hnc : ¬ ((trim (splitFirst (chars ")") (splitLast (chars ") (") l))).contains 'B'
        = true) := by
      intro hc
      have hmem : 'B' ∈ trim (splitFirst (chars ")") (splitLast (chars ") (") l)) := by
        simpa using hc
      exact hB (mem_splitLast (mem_splitFirst (mem_trim hmem)))
    have hph : parse_heap_allocation l = none := by
      unfold parse_heap_allocation
      rw [if_neg hnc]
    unfold parseLine
    rw [hph]
  · unfold parseLine
    cases hh : parse_heap_allocation l with
    | none => simp
    | some heap =>
      cases hs : containsSub (chars " samples)") l with
      | false => simp
      | true =>
        cases ht : parse_time l with
        | none => simp
        | some v =>
          obtain ⟨ts, n⟩ := v
          simp

/-- Witness for the amended C7: a line with timing-looking content but no
`'B'` anywhere is rejected. -/
theorem claim_C7_amended_witness :
    parseLine (chars "Part 1: 0 (74.13ns @ 100000 samples) (10)") = none :=
  (claim_C7_amended (chars "Part 1: 0 (74.13ns @ 100000 samples) (10)")).1 (by decide)

/-- Counterexample to claim C8 as stated: `split(':').next()` is never
`None` in Rust — on a line with no `':'` it yields the whole line — so a
colon-free line with a parsable memory figure still produces a record. -/
theorem claim_C8_counterexample :
    (':' ∉ chars "Part 1 (5B)") ∧ parseLine (chars "Part 1 (5B)") ≠ none :=
  ⟨by decide, by decide⟩

/-- Claim C8 amended: on a line with no `':'`, the `split(':')` iterator
still yields one piece — the whole line — so the line is never rejected for
lacking `':'`: every record the parser produces for it has the entire line
as its part label, and in particular, when its memory figure parses and the
line contains no `" samples)"` timing section, the exact record
`(whole line, "", 0, memory)` results. -/
theorem claim_C8_amended (l : Str) (hcolon : ':' ∉ l) :
    splitFirst (chars ":") l = l ∧
    (∀ r, parseLine l = some r → r.1 = l) ∧
    (∀ h, parse_heap_allocation l = some h →
      containsSub (chars " samples)") l = false →
      parseLine l = some (l, [], QR.ofInt 0, h)) := by
  have hsf : splitFirst (chars ":") l = l := by
    rw [show chars ":" = [':'] from by decide]
    exact splitFirst_id_char hcolon
  refine ⟨hsf, ?_, ?_⟩
  · intro r hr
    unfold parseLine at hr
    rw [hsf] at hr
    cases hh : parse_heap_allocation l with
    | none =>
      simp only [hh] at hr
      exact Option.noConfusion hr
    | some heap =>
      cases hs : containsSub (chars " samples)") l with
      | false =>
        simp only [hh, hs, Bool.not_false, if_true, Option.some.injEq] at hr
        rw [← hr]
      | true =>
        cases ht : parse_time l with
        | none =>
          simp only [hh, hs, ht, Bool.not_true, Bool.false_eq_true, if_false] at hr
          exact Option.noConfusion hr
        | some v =>
          obtain ⟨ts, n⟩ := v
          simp only [hh, hs, ht, Bool.not_true, Bool.false_eq_true, if_false,
            Option.some.injEq] at hr
          rw [← hr]
  · intro h hheap hns
    unfold parseLine
    rw [hheap, hns, hsf]
    rfl

/-- Witness for the amended C8 on the colon-free line `Part 1 (5B)`. -/
theorem claim_C8_amended_witness :
    splitFirst (chars ":") (chars "Part 1 (5B)") = chars "Part 1 (5B)" ∧
    parseLine (chars "Part 1 (5B)") =
      some (chars "Part 1 (5B)", [], QR.ofInt 0, chars "Part 1 (5B") :=
  ⟨(claim_C8_amended (chars "Part 1 (5B)") (by decide)).1,
   (claim_C8_amended (chars "Part 1 (5B)") (by decide)).2.2 (chars "Part 1 (5B")
     (by decide) (by decide)⟩

/-- Claim C10: a measurement line whose duration token is a bare digit string
(no unit suffix at all) is not rejected: the token reaches the final
classification branch, the whole token parses as a float (`split("s")` is the
identity on it), and the value is multiplied by 1,000,000,000 — a unitless
number is silently interpreted as seconds. -/
theorem claim_C10_unitless_seconds (lab v d k m : Str)
    (h1 : containsSub (chars " samples)")
      (lab ++ chars ": " ++ v ++ chars " (" ++ d ++ chars " @ " ++ k) = false)
    (hpk : '(' ∉ k) (hpm : ')' ∉ m) (htm : trim m = m) (hB : 'B' ∈ m)
    (hd : d ≠ []) (hdig : ∀ c ∈ d, isDigitCh c = true) :
    ∃ nv, parseLine (mkLine lab v d k m) =
        some (splitFirst (chars ":") (mkLine lab v d k m), d, nv, m) ∧
      QR.eqv nv ⟨(natOfDigits d : Int) * 1000000000, 1⟩ := by
  have hpd : '(' ∉ d := fun hc => ((digit_facts (hdig _ hc)).2.2.2.2.2.2.1) rfl
  have had : '@' ∉ d := fun hc => ((digit_facts (hdig _ hc)).2.2.2.2.2.2.2.1) rfl
  have htd : trim d = d :=
    trim_all_notWs (fun c hc => (digit_facts (hdig c hc)).2.2.2.2.2.1)
  have hsndg : 's' ∉ d := fun hc => ((digit_facts (hdig _ hc)).2.2.2.2.2.2.2.2.1) rfl
  have hns : containsSub (chars "ns") d = false := by
    cases hcs : containsSub (chars "ns") d with
    | false => rfl
    | true =>
      obtain ⟨r, hocc⟩ := occurs_of_containsSub (by decide) hcs
      have hmem : 'n' ∈ d := occurs_head_mem hocc (by decide)
      exact absurd rfl ((digit_facts (hdig _ hmem)).2.2.2.2.2.2.2.2.2.1)
  have hmu : containsSub (microSign :: chars "s") d = false := by
    cases hcs : containsSub (microSign :: chars "s") d with
    | false => rfl
    | true =>
      obtain ⟨r, hocc⟩ := occurs_of_containsSub (by decide) hcs
      have hmem : microSign ∈ d := occurs_head_mem hocc (by decide)
      exact absurd rfl ((digit_facts (hdig _ hmem)).2.2.2.2.2.2.2.2.2.2.2.1)
  have hms : containsSub (chars "ms") d = false := by
    cases hcs : containsSub (chars "ms") d with
    | false => rfl
    | true =>
      obtain ⟨r, hocc⟩ := occurs_of_containsSub (by decide) hcs
      have hmem : 'm' ∈ d := occurs_head_mem hocc (by decide)
      exact absurd rfl ((digit_facts (hdig _ hmem)).2.2.2.2.2.2.2.2.2.2.1)
  have hsd : specDurationNanos d = some (QR.mul
      (QR.mul (QR.ofInt 1) (QR.add (QR.ofInt (natOfDigits d)) ⟨0, 1⟩))
      (QR.ofInt 1000000000)) := by
    unfold specDurationNanos
    rw [hns, hmu, hms]
    simp only [Bool.false_eq_true, if_false]
    rw [show chars "s" = ['s'] from by decide, splitFirst_id_char hsndg,
      parseF64_digits hd hdig]
    rfl
  refine ⟨QR.mul (QR.mul (QR.ofInt 1) (QR.add (QR.ofInt (natOfDigits d)) ⟨0, 1⟩))
    (QR.ofInt 1000000000), ?_, ?_⟩
  · unfold parseLine
    have hheap : parse_heap_allocation (mkLine lab v d k m) = some m := by
      rw [mkLine_decomp₂]
      exact parse_heap_wf _ m hpm htm hB
    rw [hheap, mkLine_contains_samples]
    simp only [Bool.not_true, Bool.false_eq_true, if_false]
    rw [parse_time_wf lab v d k m h1 hpd hpk had htd, hsd]
    rfl
  · simp only [QR.eqv, QR.mul, QR.add, QR.ofInt]
    ring

/-- Witness for C10 at the bare-number duration token `42`. -/
theorem claim_C10_unitless_seconds_witness :
    ∃ nv, parseLine (mkLine (chars "Part 1") (chars "0") (chars "42")
        (chars "7") (chars "10B")) =
        some (splitFirst (chars ":") (mkLine (chars "Part 1") (chars "0")
          (chars "42") (chars "7") (chars "10B")), chars "42", nv, chars "10B") ∧
      QR.eqv nv ⟨(natOfDigits (chars "42") : Int) * 1000000000, 1⟩ :=
  claim_C10_unitless_seconds (chars "Part 1") (chars "0") (chars "42") (chars "7")
    (chars "10B") (by decide) (by decide) (by decide) (by decide) (by decide)
    (by decide) (by decide)

/-- Counterexample to claim C9 as stated: a child that spawns, pipes and
waits successfully but terminates with exit code 1 does NOT surface as an
error — the source discards the exit status (`cmd.wait()?;` only propagates
the I/O failure of `wait` itself), so the captured lines are returned as a
success. -/
theorem claim_C9_counterexample :
    run_solution ⟨true, true, true, true, [chars "x"], [], true, 1⟩ 1 true true =
      .ok [chars "x"] := rfl

/-- Claim C9 amended: a missing binary yields an empty success; spawn/wait
I/O failures and missing stream handles yield errors distinct from the
empty-success outcome; but a run in which `wait` itself succeeds returns the
captured stdout lines as a success regardless of the child's exit status. -/
theorem claim_C9_amended (env : ChildEnv) (day : Nat) (it ir : Bool) :
    (env.binExists = false → run_solution env day it ir = .ok []) ∧
    (env.binExists = true → env.spawnOk = false →
      run_solution env day it ir = .error .io) ∧
    (env.binExists = true → env.spawnOk = true → env.stdoutPipe = false →
      run_solution env day it ir = .error .brokenPipe) ∧
    (env.binExists = true → env.spawnOk = true → env.stdoutPipe = true →
      env.stderrPipe = false → run_solution env day it ir = .error .brokenPipe) ∧
    (env.binExists = true → env.spawnOk = true → env.stdoutPipe = true →
      env.stderrPipe = true → env.waitOk = false →
      run_solution env day it ir = .error .io) ∧
    (env.binExists = true → env.spawnOk = true → env.stdoutPipe = true →
      env.stderrPipe = true → env.waitOk = true →
      run_solution env day it ir = .ok env.stdoutLines) := by
  obtain ⟨be, so, sp, ep, sl, el, wo, ec⟩ := env
  cases be <;> cases so <;> cases sp <;> cases ep <;> cases wo <;>
    simp [run_solution]

/-- Witness for the amended C9: an unscaffolded unit is an empty success. -/
theorem claim_C9_amended_witness :
    run_solution ⟨false, true, true, true, [], [], true, 0⟩ 3 false false = .ok [] :=
  (claim_C9_amended ⟨false, true, true, true, [], [], true, 0⟩ 3 false false).1 rfl

/-- Counterexample to claim C1 as stated: a document containing the marker
exactly once is accepted by the patcher — `locate_table` takes `first` and
`last` of the single match and succeeds — rather than producing the
"could not find table start/end" error the claim requires for fewer than two
markers. -/
theorem claim_C1_counterexample :
    countMatches MARKER (chars "a" ++ MARKER ++ chars "b") = 1 ∧
    (update_content (chars "a" ++ MARKER ++ chars "b") [] (QR.ofInt 0)).isOk = true :=
  ⟨by decide, by decide⟩

/-- Claim C1 amended: the patcher's cardinality rule is: zero markers yield
the "could not find table start" error, one or two markers succeed (with
one marker, the single occurrence serves as both start and end), and three
or more markers yield the distinct "too many occurences" error. -/
theorem claim_C1_amended (doc : Str) (benches : List Benchmark) (tot : QR) :
    (countMatches MARKER doc = 0 →
      update_content doc benches tot =
        .error (.parser (chars "Could not find table start position."))) ∧
    ((countMatches MARKER doc = 1 ∨ countMatches MARKER doc = 2) →
      (update_content doc benches tot).isOk = true) ∧
    (2 < countMatches MARKER doc →
      update_content doc benches tot =
        .error (.parser (chars "{}: too many occurences of marker in README."))) ∧
    chars "Could not find table start position." ≠
      chars "{}: too many occurences of marker in README." := by
  unfold countMatches
  refine ⟨?_, ?_, ?_, by decide⟩
  · intro h
    have hmi : matchIndicesFrom MARKER doc 0 = [] := List.length_eq_zero.mp h
    unfold update_content locate_table
    rw [hmi]
    rfl
  · intro h
    unfold update_content locate_table
    cases hmi : matchIndicesFrom MARKER doc 0 with
    | nil => rw [hmi] at h; simp at h
    | cons x t =>
      rw [hmi] at h
      cases t with
      | nil => rfl
      | cons y t' =>
        cases t' with
        | nil => rfl
        | cons z t'' => simp at h
  · intro h
    unfold update_content locate_table
    cases hmi : matchIndicesFrom MARKER doc 0 with
    | nil => rw [hmi] at h; simp at h
    | cons x t =>
      rw [hmi] at h
      cases t with
      | nil => simp at h
      | cons y t' =>
        cases t' with
        | nil => simp at h
        | cons z t'' =>
          rw [if_pos (by simp only [List.length_cons]; omega)]

/-- Witness for the amended C1: a marker-free document produces the
"could not find table start" error. -/
theorem claim_C1_amended_witness :
    update_content (chars "# readme") [] (QR.ofInt 0) =
      .error (.parser (chars "Could not find table start position.")) :=
  (claim_C1_amended (chars "# readme") [] (QR.ofInt 0)).1 (by decide)

/-- Claim C4: when the scan finds the marker at exactly the two offsets `p`
and `q`, the patched text is exactly the text strictly before the first
occurrence, the freshly rendered table, and the text strictly after the end
of the second occurrence; `p` and `q` really are marker occurrences and are
the only ones, so everything outside the span `[p, q + MARKER.length)` is
preserved verbatim. -/
theorem claim_C4_splice (doc : Str) (benches : List Benchmark) (tot : QR) (p q : Nat)
    (hm : matchIndicesFrom MARKER doc 0 = [p, q]) :
    update_content doc benches tot =
      .ok (doc.take p ++ construct_table (chars "##") benches tot ++
        doc.drop (q + MARKER.length)) ∧
    MARKER <+: doc.drop p ∧ MARKER <+: doc.drop q ∧ p < q ∧
    (∀ r, MARKER <+: doc.drop r → r = p ∨ r = q) := by
  have hop : MARKER <+: doc.drop p := mi_occurs (by decide) (by rw [hm]; simp)
  have hoq : MARKER <+: doc.drop q := mi_occurs (by decide) (by rw [hm]; simp)
  have hpq : p < q := by
    have hs := mi_sorted (s := doc) (show MARKER ≠ [] from by decide)
    rw [hm] at hs
    exact (List.pairwise_cons.mp hs).1 q (by simp)
  refine ⟨?_, hop, hoq, hpq, ?_⟩
  · unfold update_content locate_table
    rw [hm]
    rfl
  · intro r hr
    have := mi_mem (by decide) (by decide) hr
    rw [hm] at this
    simpa using this

/-- Witness for C4 on a small document with one marker pair. -/
theorem claim_C4_splice_witness :
    update_content (chars "foo\n" ++ MARKER ++ chars "x" ++ MARKER ++ chars "\nbar")
        [] (QR.ofInt 0) =
      .ok ((chars "foo\n" ++ MARKER ++ chars "x" ++ MARKER ++ chars "\nbar").take 4 ++
        construct_table (chars "##") [] (QR.ofInt 0) ++
        (chars "foo\n" ++ MARKER ++ chars "x" ++ MARKER ++ chars "\nbar").drop
          (34 + MARKER.length)) ∧
    MARKER <+: (chars "foo\n" ++ MARKER ++ chars "x" ++ MARKER ++ chars "\nbar").drop 4 ∧
    MARKER <+: (chars "foo\n" ++ MARKER ++ chars "x" ++ MARKER ++ chars "\nbar").drop 34 ∧
    4 < 34 ∧
    (∀ r, MARKER <+: (chars "foo\n" ++ MARKER ++ chars "x" ++ MARKER ++
      chars "\nbar").drop r → r = 4 ∨ r = 34) :=
  claim_C4_splice (chars "foo\n" ++ MARKER ++ chars "x" ++ MARKER ++ chars "\nbar")
    [] (QR.ofInt 0) 4 34 (by decide)

/-! ## Character-shape lemmas for the rendered table -/

theorem digitChar_mem (n : Nat) : digitChar n ∈ chars "0123456789" := by
  unfold digitChar
  split <;> decide

theorem natDigitsAux_mem {c : Char} : ∀ {f n : Nat}, c ∈ natDigitsAux f n →
    c ∈ chars "0123456789" := by
  intro f
  induction f with
  | zero => intro n h; simp [natDigitsAux] at h
  | succ f ih =>
    intro n h
    unfold natDigitsAux at h
    split at h
    · simp only [List.mem_singleton] at h
      rw [h]
      exact digitChar_mem n
    · simp only [List.mem_append, List.mem_singleton] at h
      rcases h with h | h
      · exact ih h
      · rw [h]
        exact digitChar_mem (n % 10)

theorem natDigits_mem {c : Char} {n : Nat} (h : c ∈ natDigits n) :
    c ∈ chars "0123456789" := natDigitsAux_mem h

theorem dayPad_mem {c : Char} {n : Nat} (h : c ∈ dayPad n) :
    c ∈ chars "0123456789" := by
  unfold dayPad at h
  split at h
  · simp only [List.mem_cons] at h
    rcases h with h | h
    · rw [h]; decide
    · exact natDigits_mem h
  · exact natDigits_mem h

theorem fmt_not_marker (q : QR) : '<' ∉ formatFixed2 q ∧ '#' ∉ formatFixed2 q := by
  constructor <;> intro hc <;>
  · unfold formatFixed2 at hc
    simp only [List.mem_append, List.mem_singleton] at hc
    rcases hc with ((hs | hd) | hdot) | hpad
    · split at hs
      · simp only [List.mem_singleton] at hs
        exact absurd hs (by decide)
      · simp at hs
    · exact absurd (natDigits_mem hd) (by decide)
    · exact absurd hdot (by decide)
    · split at hpad
      · simp only [List.mem_cons] at hpad
        rcases hpad with h | h
        · exact absurd h (by decide)
        · exact absurd (natDigits_mem h) (by decide)
      · exact absurd (natDigits_mem hpad) (by decide)

theorem totalLine_not_marker (t : QR) : '<' ∉ totalLine t ∧ '#' ∉ totalLine t := by
  have hf := fmt_not_marker t
  constructor <;> intro hc <;>
  · unfold totalLine at hc
    simp only [List.mem_append, List.mem_singleton] at hc
    rcases hc with ((h | h) | h) | h
    · exact absurd h (by decide)
    · first
      | exact hf.1 h
      | exact hf.2 h
    · exact absurd h (by decide)
    · exact absurd h (by decide)

theorem benchRow_not_marker {b : Benchmark} (hb : cleanBench b) :
    '<' ∉ benchRow b ∧ '#' ∉ benchRow b := by
  obtain ⟨h1, h2⟩ := hb
  have hp1 : cleanStr (b.part_1.getD (chars "-", chars "-")).1 ∧
      cleanStr (b.part_1.getD (chars "-", chars "-")).2 := by
    cases ho : b.part_1 with
    | none => exact ⟨⟨by decide, by decide⟩, ⟨by decide, by decide⟩⟩
    | some pr =>
      rw [ho] at h1
      obtain ⟨t, mm⟩ := pr
      simpa [cleanPair] using h1
  have hp2 : cleanStr (b.part_2.getD (chars "-", chars "-")).1 ∧
      cleanStr (b.part_2.getD (chars "-", chars "-")).2 := by
    cases ho : b.part_2 with
    | none => exact ⟨⟨by decide, by decide⟩, ⟨by decide, by decide⟩⟩
    | some pr =>
      rw [ho] at h2
      obtain ⟨t, mm⟩ := pr
      simpa [cleanPair] using h2
  constructor <;> intro hc <;>
  · unfold benchRow get_path_for_bin at hc
    simp only [List.mem_append] at hc
    rcases hc with ((((((((((((hc | hc) | hc) | ((hc | hc) | hc)) | hc) | hc) | hc) |
      hc) | hc) | hc) | hc) | hc) | hc)
    all_goals first
    | exact absurd hc (by decide)
    | exact absurd (natDigits_mem hc) (by decide)
    | exact absurd (dayPad_mem hc) (by decide)
    | exact hp1.1.1 hc
    | exact hp1.1.2 hc
    | exact hp1.2.1 hc
    | exact hp1.2.2 hc
    | exact hp2.1.1 hc
    | exact hp2.1.2 hc
    | exact hp2.2.1 hc
    | exact hp2.2.2 hc

theorem jl_cons {x : Str} {xs : List Str} (h : xs ≠ []) :
    joinLines (x :: xs) = x ++ '\n' :: joinLines xs := by
  cases xs with
  | nil => exact absurd rfl h
  | cons y ys => rfl

theorem jl_append_last : ∀ (xs : List Str), xs ≠ [] → ∀ y : Str,
    joinLines (xs ++ [y]) = joinLines xs ++ '\n' :: y := by
  intro xs
  induction xs with
  | nil => intro h; exact absurd rfl h
  | cons x xs ih =>
    intro _ y
    cases xs with
    | nil => rfl
    | cons z zs =>
      calc joinLines ((x :: z :: zs) ++ [y])
          = x ++ '\n' :: joinLines ((z :: zs) ++ [y]) := by
            rw [List.cons_append]
            exact jl_cons (by simp)
        _ = x ++ '\n' :: (joinLines (z :: zs) ++ '\n' :: y) := by rw [ih (by simp) y]
        _ = (x ++ '\n' :: joinLines (z :: zs)) ++ '\n' :: y := by
            simp [List.append_assoc]
        _ = joinLines (x :: z :: zs) ++ '\n' :: y := by
            conv_rhs => rw [jl_cons (show (z :: zs : List Str) ≠ [] from by simp)]

theorem mem_joinLines {c : Char} : ∀ {ls : List Str}, c ∈ joinLines ls →
    c = '\n' ∨ ∃ l ∈ ls, c ∈ l := by
  intro ls
  induction ls with
  | nil => intro h; simp [joinLines] at h
  | cons x xs ih =>
    intro h
    cases xs with
    | nil => exact Or.inr ⟨x, by simp, h⟩
    | cons y ys =>
      rw [jl_cons (by simp)] at h
      simp only [List.mem_append, List.mem_cons] at h
      rcases h with h | h | h
      · exact Or.inr ⟨x, by simp, h⟩
      · exact Or.inl h
      · rcases ih h with h' | ⟨l, hl, hcl⟩
        · exact Or.inl h'
        · exact Or.inr ⟨l, by simp [hl], hcl⟩

theorem innerRest_line {bs : List Benchmark} {t : QR} {l : Str}
    (hl : l ∈ innerRest bs t) :
    l = [] ∨ l = chars "| Day | Part 1 | Part 2 |" ∨
    l = chars "| :---: | :---: | :---:  |" ∨ (∃ b ∈ bs, benchRow b = l) ∨
    l = totalLine t := by
  unfold innerRest at hl
  simp only [List.mem_append, List.mem_cons, List.not_mem_nil, or_false,
    List.mem_map] at hl
  rcases hl with ((h | h | h) | ⟨b, hb, hbe⟩) | (h | h)
  · exact Or.inl h
  · exact Or.inr (Or.inl h)
  · exact Or.inr (Or.inr (Or.inl h))
  · exact Or.inr (Or.inr (Or.inr (Or.inl ⟨b, hb, hbe⟩)))
  · exact Or.inl h
  · exact Or.inr (Or.inr (Or.inr (Or.inr h)))

theorem ct_decomp (bs : List Benchmark) (t : QR) :
    construct_table (chars "##") bs t = MARKER ++ midOf bs t ++ MARKER := by
  show joinLines ([MARKER, chars "##" ++ chars " Benchmarks", [],
      chars "| Day | Part 1 | Part 2 |", chars "| :---: | :---: | :---:  |"] ++
      bs.map benchRow ++ [[], totalLine t, MARKER]) = MARKER ++ midOf bs t ++ MARKER
  rw [show chars "##" ++ chars " Benchmarks" = HEADING from by decide]
  have hlist : ([MARKER, HEADING, [], chars "| Day | Part 1 | Part 2 |",
        chars "| :---: | :---: | :---:  |"] ++ bs.map benchRow ++
        [[], totalLine t, MARKER] : List Str) =
      MARKER :: (innerList bs t ++ [MARKER]) := by
    simp [innerList, innerRest]
  rw [hlist, jl_cons (by simp [innerList]), jl_append_last _ (by simp [innerList])]
  unfold midOf
  simp [List.append_assoc]

theorem mid_decomp (bs : List Benchmark) (t : QR) :
    midOf bs t = '\n' :: '#' :: '#' :: midTail bs t := by
  unfold midOf innerList midTail
  rw [jl_cons (by simp [innerRest]), show HEADING = '#' :: '#' :: chars " Benchmarks"
    from by decide]
  simp [List.append_assoc]

theorem midTail_no_sharp {bs : List Benchmark} {t : QR}
    (hcl : ∀ b ∈ bs, cleanBench b) : '#' ∉ midTail bs t := by
  intro hc
  unfold midTail at hc
  simp only [List.mem_append, List.mem_cons, List.mem_singleton] at hc
  rcases hc with (h | h | h) | h
  · exact absurd h (by decide)
  · exact absurd h (by decide)
  · rcases mem_joinLines h with h' | ⟨l, hl, hcl'⟩
    · exact absurd h' (by decide)
    · rcases innerRest_line hl with rfl | rfl | rfl | ⟨b, hb, hbe⟩ | rfl
      · simp at hcl'
      · exact absurd hcl' (by decide)
      · exact absurd hcl' (by decide)
      · rw [← hbe] at hcl'
        exact (benchRow_not_marker (hcl b hb)).2 hcl'
      · exact (totalLine_not_marker t).2 hcl'
  · exact absurd h (by decide)

theorem midOf_no_lt {bs : List Benchmark} {t : QR}
    (hcl : ∀ b ∈ bs, cleanBench b) : '<' ∉ midOf bs t := by
  intro hc
  unfold midOf innerList at hc
  simp only [List.mem_cons, List.mem_append, List.mem_singleton] at hc
  rcases hc with h | (h | h)
  · exact absurd h (by decide)
  · rcases mem_joinLines h with h' | ⟨l, hl, hcl'⟩
    · exact absurd h' (by decide)
    · simp only [List.mem_cons] at hl
      rcases hl with rfl | hl
      · exact absurd hcl' (by decide)
      · rcases innerRest_line hl with rfl | rfl | rfl | ⟨b, hb, hbe⟩ | rfl
        · simp at hcl'
        · exact absurd hcl' (by decide)
        · exact absurd hcl' (by decide)
        · rw [← hbe] at hcl'
          exact (benchRow_not_marker (hcl b hb)).1 hcl'
        · exact (totalLine_not_marker t).1 hcl'
  · exact absurd h (by decide)

theorem mk_lt_unique : ∀ k, k < MARKER.length → MARKER[k]? = some '<' → k = 0 := by
  decide

theorem midTail_len (bs : List Benchmark) (t : QR) : 11 ≤ (midTail bs t).length := by
  unfold midTail
  have h11 : (chars " Benchmarks").length = 11 := by decide
  simp [List.length_append, h11]

/-- Counterexample to claim C2 as stated: with a benchmark whose part-1
display strings contain the marker token itself, the once-patched document
contains the marker three times, not two — so the claimed "result contains
exactly two occurrences of the marker" fails, and a second application would
hit the "too many occurences" error rather than reproduce the text. -/
theorem claim_C2_counterexample :
    countMatches MARKER (MARKER ++ MARKER) = 2 ∧
    update_content (MARKER ++ MARKER) [⟨1, some (MARKER, chars "10B"), none, QR.ofInt 0⟩]
      (QR.ofInt 0) =
      .ok (construct_table (chars "##") [⟨1, some (MARKER, chars "10B"), none, QR.ofInt 0⟩]
        (QR.ofInt 0)) ∧
    countMatches MARKER (construct_table (chars "##")
      [⟨1, some (MARKER, chars "10B"), none, QR.ofInt 0⟩] (QR.ofInt 0)) = 3 :=
  ⟨by decide, by decide, by decide⟩

/-- Claim C2 amended: for a document in which the scan finds the marker at
exactly the two offsets `p < q`, a benchmark list whose display strings
contain neither `'<'` nor `'#'`, and a document whose text outside the
marker span contains no occurrence of the heading line, the patch succeeds,
re-applying it to the patched text reproduces that text exactly
(idempotence), and the patched text contains the marker exactly twice and
the heading exactly once. -/
theorem claim_C2_idempotent (doc : Str) (benches : List Benchmark) (tot : QR)
    (p q : Nat)
    (hm : matchIndicesFrom MARKER doc 0 = [p, q])
    (hclean : ∀ b ∈ benches, cleanBench b)
    (hha : containsSub HEADING (doc.take p) = false)
    (hhc : containsSub HEADING (doc.drop (q + MARKER.length)) = false) :
    update_content doc benches tot =
      .ok (doc.take p ++ construct_table (chars "##") benches tot ++
        doc.drop (q + MARKER.length)) ∧
    update_content (doc.take p ++ construct_table (chars "##") benches tot ++
        doc.drop (q + MARKER.length)) benches tot =
      .ok (doc.take p ++ construct_table (chars "##") benches tot ++
        doc.drop (q + MARKER.length)) ∧
    countMatches MARKER (doc.take p ++ construct_table (chars "##") benches tot ++
      doc.drop (q + MARKER.length)) = 2 ∧
    countMatches HEADING (doc.take p ++ construct_table (chars "##") benches tot ++
      doc.drop (q + MARKER.length)) = 1 := by
  have hMne : MARKER ≠ [] := by decide
  have hMno : noOverlap MARKER = true := by decide
  have hHne : HEADING ≠ [] := by decide
  have hHno : noOverlap HEADING = true := by decide
  have hL1 : 1 ≤ MARKER.length := by decide
  have hop : MARKER <+: doc.drop p := mi_occurs hMne (by rw [hm]; simp)
  have hoq : MARKER <+: doc.drop q := mi_occurs hMne (by rw [hm]; simp)
  have hpq : p < q := by
    have hs := mi_sorted (s := doc) hMne
    rw [hm] at hs
    exact (List.pairwise_cons.mp hs).1 q (by simp)
  have huniq : ∀ r, MARKER <+: doc.drop r → r = p ∨ r = q := by
    intro r hr
    have := mi_mem hMne hMno hr
    rw [hm] at this
    simpa using this
  have hple : p + MARKER.length ≤ doc.length := by
    have := hop.length_le
    rw [List.length_drop] at this
    omega
  have hqle : q + MARKER.length ≤ doc.length := by
    have := hoq.length_le
    rw [List.length_drop] at this
    omega
  obtain ⟨w, hw⟩ := hop
  have hwdef : w = doc.drop (p + MARKER.length) := by
    have h := congrArg (List.drop MARKER.length) hw
    rwa [List.drop_left, List.drop_drop] at h
  have hqpL : p + MARKER.length ≤ q := by
    by_contra hlt
    push_neg at hlt
    have hsplit : doc.drop q = MARKER.drop (q - p) ++ w := by
      have h1 : doc.drop q = (doc.drop p).drop (q - p) := by
        rw [List.drop_drop, show p + (q - p) = q from by omega]
      rw [h1, ← hw, List.drop_append_eq_append_drop,
        show q - p - MARKER.length = 0 from by omega, List.drop_zero]
    exact overlap_kill hMno (hsplit ▸ hoq) (by omega) (by omega)
  obtain ⟨w2, hw2⟩ := hoq
  have hw2def : w2 = doc.drop (q + MARKER.length) := by
    have h := congrArg (List.drop MARKER.length) hw2
    rwa [List.drop_left, List.drop_drop] at h
  have hdp : doc.drop p = MARKER ++ doc.drop (p + MARKER.length) := by
    rw [← hw, hwdef]
  have hdq : doc.drop q = MARKER ++ doc.drop (q + MARKER.length) := by
    rw [← hw2, hw2def]
  set a := doc.take p with hadef
  set c := doc.drop (q + MARKER.length) with hcdef
  set mid := midOf benches tot with hmiddef
  set T := construct_table (chars "##") benches tot with hTdef
  have halen : a.length = p := by
    rw [hadef, List.length_take]
    omega
  have hT : T = MARKER ++ mid ++ MARKER := ct_decomp benches tot
  have hTlen : T.length = MARKER.length + mid.length + MARKER.length := by
    rw [hT]
    simp only [List.length_append]
  have hmidT : mid = '\n' :: '#' :: '#' :: midTail benches tot := mid_decomp benches tot
  have hmidlen : mid.length = 3 + (midTail benches tot).length := by
    rw [hmidT]
    simp only [List.length_cons]
    omega
  have hmid14 : 14 ≤ mid.length := by
    have := midTail_len benches tot
    omega
  have hagree : (a ++ T ++ c).take (p + MARKER.length) = doc.take (p + MARKER.length) := by
    have h1 : (a ++ T ++ c).take (p + MARKER.length) = a ++ MARKER := by
      rw [hT, show a ++ (MARKER ++ mid ++ MARKER) ++ c =
        (a ++ MARKER) ++ (mid ++ (MARKER ++ c)) from by simp [List.append_assoc],
        show p + MARKER.length = (a ++ MARKER).length from by simp [halen],
        List.take_left]
    have h2 : doc.take (p + MARKER.length) = a ++ MARKER := by
      rw [List.take_add, hdp, ← hadef, List.take_left]
    rw [h1, h2]
  have hoch : ∀ r, MARKER <+: (a ++ T ++ c).drop r ↔
      (r = p ∨ r = p + MARKER.length + mid.length) := by
    intro r
    constructor
    · intro hocc
      rcases Nat.lt_or_ge r (p + 1) with hr | hr
      · left
        have hfit : r + MARKER.length ≤ p + MARKER.length := by omega
        have hdoc : MARKER <+: doc.drop r := by
          rw [← occurs_take_fit hfit, ← hagree, occurs_take_fit hfit]
          exact hocc
        rcases huniq r hdoc with h | h
        · exact h
        · omega
      · rcases Nat.lt_or_ge r (p + MARKER.length + mid.length) with hr2 | hr2
        · exfalso
          have hchar : (a ++ T ++ c)[r]? = some '<' := by
            have h := occurs_cover hocc (k := 0) (by decide)
            rwa [Nat.add_zero, show MARKER[0]? = some '<' from by decide] at h
          have h1 : (a ++ T ++ c)[r]? = T[r - p]? := by
            rw [List.append_assoc, List.getElem?_append_right (by omega : a.length ≤ r),
              halen, List.getElem?_append, if_pos (by omega)]
          rcases Nat.lt_or_ge (r - p) MARKER.length with hj | hj
          · have h3 : T[r - p]? = MARKER[r - p]? := by
              rw [hT, show (MARKER ++ mid ++ MARKER : Str) = MARKER ++ (mid ++ MARKER)
                from by simp [List.append_assoc], List.getElem?_append, if_pos hj]
            have h4 : MARKER[r - p]? = some '<' := by
              rw [← h3, ← h1]
              exact hchar
            have := mk_lt_unique (r - p) hj h4
            omega
          · have h3 : T[r - p]? = mid[r - p - MARKER.length]? := by
              rw [hT, show (MARKER ++ mid ++ MARKER : Str) = MARKER ++ (mid ++ MARKER)
                from by simp [List.append_assoc],
                List.getElem?_append_right hj, List.getElem?_append, if_pos (by omega)]
            have h4 : mid[r - p - MARKER.length]? = some '<' := by
              rw [← h3, ← h1]
              exact hchar
            exact midOf_no_lt hclean (List.getElem?_mem h4)
        · right
          have hlen2 : (a ++ MARKER ++ mid).length = p + MARKER.length + mid.length := by
            simp only [List.length_append, halen]
          have hocc2 : MARKER <+: (MARKER ++ c).drop (r - (p + MARKER.length + mid.length)) := by
            rw [show a ++ T ++ c = (a ++ MARKER ++ mid) ++ (MARKER ++ c) from by
                rw [hT]; simp [List.append_assoc],
              show r = (a ++ MARKER ++ mid).length + (r - (p + MARKER.length + mid.length))
                from by rw [hlen2]; omega] at hocc
            rwa [occurs_append_right] at hocc
          have hdoc : MARKER <+: doc.drop (q + (r - (p + MARKER.length + mid.length))) := by
            rw [← List.drop_drop, hdq]
            exact hocc2
          rcases huniq _ hdoc with h | h
          · omega
          · omega
    · intro hr
      rcases hr with h | h
      · rw [h, show a ++ T ++ c = a ++ (T ++ c) from by simp [List.append_assoc],
          show p = a.length from halen.symm, List.drop_left, hT]
        exact prefix_extend (prefix_extend (List.prefix_append MARKER mid))
      · have hlen2 : (a ++ MARKER ++ mid).length = p + MARKER.length + mid.length := by
          simp only [List.length_append, halen]
        rw [h, show a ++ T ++ c = (a ++ MARKER ++ mid) ++ (MARKER ++ c) from by
            rw [hT]; simp [List.append_assoc], ← hlen2, List.drop_left]
        exact List.prefix_append MARKER c
  have hq'p : p < p + MARKER.length + mid.length := by omega
  have hmiout : matchIndicesFrom MARKER (a ++ T ++ c) 0 =
      [p, p + MARKER.length + mid.length] :=
    mi_eq_pair hMne hMno hq'p ((hoch p).mpr (Or.inl rfl))
      ((hoch _).mpr (Or.inr rfl)) (fun r hr => (hoch r).mp hr)
  have hochH : ∀ r, HEADING <+: (a ++ T ++ c).drop r ↔ r = p + MARKER.length + 1 := by
    intro r
    constructor
    · intro hocc
      have hchar : (a ++ T ++ c)[r]? = some '#' := by
        have h := occurs_cover hocc (k := 0) (by decide)
        rwa [Nat.add_zero, show HEADING[0]? = some '#' from by decide] at h
      rcases Nat.lt_or_ge r p with hr | hr
      · exfalso
        rcases Nat.lt_or_ge (r + HEADING.length) (p + 1) with hfit | hstr
        · have hin : HEADING <+: a.drop r := by
            rw [show a ++ T ++ c = a ++ (T ++ c) from by simp [List.append_assoc],
              occurs_append_fit (by omega : r + HEADING.length ≤ a.length)] at hocc
            exact hocc
          exact not_occurs_of_containsSub hHne hHno hha r hin
        · have hpchar : (a ++ T ++ c)[p]? = some '<' := by
            rw [List.append_assoc, List.getElem?_append_right (by omega : a.length ≤ p),
              halen, Nat.sub_self, hT,
              show (MARKER ++ mid ++ MARKER : Str) ++ c = MARKER ++ (mid ++ MARKER ++ c)
                from by simp [List.append_assoc],
              List.getElem?_append, if_pos (by decide)]
            decide
          have h5 := occurs_cover_mem hocc (by omega : r ≤ p)
            (by omega : p < r + HEADING.length) hpchar
          exact absurd (List.getElem?_mem h5) (by decide)
      · rcases Nat.lt_or_ge r (p + T.length) with hr2 | hr2
        · have h1 : (a ++ T ++ c)[r]? = T[r - p]? := by
            rw [List.append_assoc, List.getElem?_append_right (by omega : a.length ≤ r),
              halen, List.getElem?_append, if_pos (by omega)]
          have hTchar : T[r - p]? = some '#' := by
            rw [← h1]
            exact hchar
          have hsharp : r - p = MARKER.length + 1 ∨ r - p = MARKER.length + 2 := by
            rcases Nat.lt_or_ge (r - p) MARKER.length with h4 | h4
            · exfalso
              have h5 : T[r - p]? = MARKER[r - p]? := by
                rw [hT, show (MARKER ++ mid ++ MARKER : Str) = MARKER ++ (mid ++ MARKER)
                  from by simp [List.append_assoc], List.getElem?_append, if_pos h4]
              rw [h5] at hTchar
              exact absurd (List.getElem?_mem hTchar) (by decide)
            · rcases Nat.lt_or_ge (r - p) (MARKER.length + mid.length) with h5 | h5
              · have h6 : T[r - p]? = mid[r - p - MARKER.length]? := by
                  rw [hT, show (MARKER ++ mid ++ MARKER : Str) = MARKER ++ (mid ++ MARKER)
                    from by simp [List.append_assoc],
                    List.getElem?_append_right h4, List.getElem?_append, if_pos (by omega)]
                rw [h6, hmidT] at hTchar
                by_cases h1e : r - p - MARKER.length = 1
                · left
                  omega
                by_cases h2e : r - p - MARKER.length = 2
                · right
                  omega
                exfalso
                by_cases h0e : r - p - MARKER.length = 0
                · rw [h0e] at hTchar
                  simp at hTchar
                · have h3e : r - p - MARKER.length =
                      r - p - MARKER.length - 3 + 1 + 1 + 1 := by omega
                  rw [h3e] at hTchar
                  simp only [List.getElem?_cons_succ] at hTchar
                  exact absurd (List.getElem?_mem hTchar) (midTail_no_sharp hclean)
              · exfalso
                have h6 : T[r - p]? = MARKER[r - p - (MARKER.length + mid.length)]? := by
                  rw [hT, List.getElem?_append_right (by simp; omega)]
                  congr 1
                  simp [Nat.sub_sub]
                rw [h6] at hTchar
                exact absurd (List.getElem?_mem hTchar) (by decide)
          rcases hsharp with h6 | h6
          · omega
          · exfalso
            have hc1 := occurs_cover hocc (k := 1) (by decide)
            rw [show HEADING[1]? = some '#' from by decide] at hc1
            have hT3 : T[MARKER.length + 3]? = some ' ' := by
              rw [hT, show (MARKER ++ mid ++ MARKER : Str) = MARKER ++ (mid ++ MARKER)
                from by simp [List.append_assoc],
                List.getElem?_append_right (by omega : MARKER.length ≤ MARKER.length + 3),
                Nat.add_sub_cancel_left, List.getElem?_append, if_pos (by omega),
                hmidT, show (3 : Nat) = 0 + 1 + 1 + 1 from rfl]
              simp only [List.getElem?_cons_succ]
              unfold midTail
              have hlenB : 0 < (chars " Benchmarks").length := by decide
              rw [List.getElem?_append,
                if_pos (by rw [List.length_append]; omega),
                List.getElem?_append, if_pos hlenB]
              decide
            have hvchar : (a ++ T ++ c)[r + 1]? = some ' ' := by
              rw [show r + 1 = p + (MARKER.length + 3) from by omega,
                List.append_assoc,
                List.getElem?_append_right (by omega : a.length ≤ p + (MARKER.length + 3)),
                halen, Nat.add_sub_cancel_left, List.getElem?_append,
                if_pos (by omega : MARKER.length + 3 < T.length)]
              exact hT3
            rw [hvchar] at hc1
            simp at hc1
        · exfalso
          have hocc2 : HEADING <+: c.drop (r - (p + T.length)) := by
            rw [show r = (a ++ T).length + (r - (p + T.length)) from by
                simp [halen]; omega] at hocc
            rwa [occurs_append_right] at hocc
          exact not_occurs_of_containsSub hHne hHno hhc _ hocc2
    · intro hr
      subst hr
      have hlen2 : (a ++ MARKER).length = p + MARKER.length := by simp [halen]
      rw [show a ++ T ++ c = (a ++ MARKER) ++ (mid ++ (MARKER ++ c)) from by
          rw [hT]; simp [List.append_assoc],
        show p + MARKER.length + 1 = (a ++ MARKER).length + 1 from by rw [hlen2],
        occurs_append_right, hmidT]
      rw [show (('\n' :: '#' :: '#' :: midTail benches tot : Str) ++
          (MARKER ++ c)).drop 1 = ('#' :: '#' :: midTail benches tot : Str) ++
          (MARKER ++ c) from by simp]
      rw [show HEADING = '#' :: '#' :: chars " Benchmarks" from by decide]
      refine ⟨(('\n' :: joinLines (innerRest benches tot)) ++ ['\n']) ++ (MARKER ++ c), ?_⟩
      unfold midTail
      simp [List.append_assoc]
  have hmiH : matchIndicesFrom HEADING (a ++ T ++ c) 0 = [p + MARKER.length + 1] :=
    mi_eq_single hHne hHno ((hochH _).mpr rfl) (fun r hr => (hochH r).mp hr)
  refine ⟨?_, ?_, ?_, ?_⟩
  · unfold update_content locate_table
    rw [hm]
    rfl
  · unfold update_content locate_table
    rw [hmiout]
    have ht1 : (a ++ T ++ c).take p = a := by
      rw [List.append_assoc, ← halen, List.take_left]
    have ht2 : (a ++ T ++ c).drop (p + MARKER.length + mid.length + MARKER.length) = c := by
      rw [show p + MARKER.length + mid.length + MARKER.length = (a ++ T).length from by
          rw [List.length_append, halen, hTlen]; omega,
        List.drop_left]
    show Except.ok ((a ++ T ++ c).take p ++ T ++
        (a ++ T ++ c).drop (p + MARKER.length + mid.length + MARKER.length)) =
      Except.ok (a ++ T ++ c)
    rw [ht1, ht2]
  · unfold countMatches
    rw [hmiout]
    rfl
  · unfold countMatches
    rw [hmiH]
    rfl

/-- Witness for the amended C2 on a small two-marker document and one clean
benchmark. -/
theorem claim_C2_idempotent_witness :
    update_content (chars "foo\n" ++ MARKER ++ chars "\nmid\n" ++ MARKER ++ chars "\nbar")
      [⟨1, some (chars "10ms", chars "10B"), some (chars "20ms", chars "20B"), QR.ofInt 0⟩]
      (QR.ofInt 190) =
      .ok ((chars "foo\n" ++ MARKER ++ chars "\nmid\n" ++ MARKER ++ chars "\nbar").take 4 ++
        construct_table (chars "##")
          [⟨1, some (chars "10ms", chars "10B"), some (chars "20ms", chars "20B"), QR.ofInt 0⟩]
          (QR.ofInt 190) ++
        (chars "foo\n" ++ MARKER ++ chars "\nmid\n" ++ MARKER ++ chars "\nbar").drop
          (38 + MARKER.length)) ∧
    update_content ((chars "foo\n" ++ MARKER ++ chars "\nmid\n" ++ MARKER ++ chars "\nbar").take 4 ++
        construct_table (chars "##")
          [⟨1, some (chars "10ms", chars "10B"), some (chars "20ms", chars "20B"), QR.ofInt 0⟩]
          (QR.ofInt 190) ++
        (chars "foo\n" ++ MARKER ++ chars "\nmid\n" ++ MARKER ++ chars "\nbar").drop
          (38 + MARKER.length))
      [⟨1, some (chars "10ms", chars "10B"), some (chars "20ms", chars "20B"), QR.ofInt 0⟩]
      (QR.ofInt 190) =
      .ok ((chars "foo\n" ++ MARKER ++ chars "\nmid\n" ++ MARKER ++ chars "\nbar").take 4 ++
        construct_table (chars "##")
          [⟨1, some (chars "10ms", chars "10B"), some (chars "20ms", chars "20B"), QR.ofInt 0⟩]
          (QR.ofInt 190) ++
        (chars "foo\n" ++ MARKER ++ chars "\nmid\n" ++ MARKER ++ chars "\nbar").drop
          (38 + MARKER.length)) ∧
    countMatches MARKER ((chars "foo\n" ++ MARKER ++ chars "\nmid\n" ++ MARKER ++ chars "\nbar").take 4 ++
      construct_table (chars "##")
        [⟨1, some (chars "10ms", chars "10B"), some (chars "20ms", chars "20B"), QR.ofInt 0⟩]
        (QR.ofInt 190) ++
      (chars "foo\n" ++ MARKER ++ chars "\nmid\n" ++ MARKER ++ chars "\nbar").drop
        (38 + MARKER.length)) = 2 ∧
    countMatches HEADING ((chars "foo\n" ++ MARKER ++ chars "\nmid\n" ++ MARKER ++ chars "\nbar").take 4 ++
      construct_table (chars "##")
        [⟨1, some (chars "10ms", chars "10B"), some (chars "20ms", chars "20B"), QR.ofInt 0⟩]
        (QR.ofInt 190) ++
      (chars "foo\n" ++ MARKER ++ chars "\nmid\n" ++ MARKER ++ chars "\nbar").drop
        (38 + MARKER.length)) = 1 :=
  claim_C2_idempotent
    (chars "foo\n" ++ MARKER ++ chars "\nmid\n" ++ MARKER ++ chars "\nbar")
    [⟨1, some (chars "10ms", chars "10B"), some (chars "20ms", chars "20B"), QR.ofInt 0⟩]
    (QR.ofInt 190) 4 38 (by decide) (by decide) (by decide) (by decide)
